import Mathlib

/-!
Shallow embedding of the availability / period-generation subsystem of the
Go2gether backend (`internal/handlers/trips.go`): the `SaveAvailability`,
`GenerateAvailablePeriods` and `GetAvailablePeriods` handlers, together with
the SQL they execute against the `availabilities`, `trip_members` and
`available_periods` tables.

Modelling conventions:
* Calendar dates are integers (days since an arbitrary epoch); the Go code
  normalizes every date to midnight UTC (`dateOnlyUTC`), so date arithmetic
  (`AddDate(0,0,1)`, `Sub(..).Hours()/24`) is exact integer arithmetic.
* The outcome of trimming and `time.ParseInLocation("2006-01-02", ..)` on one
  raw request string is abstracted by `RawDate`: an all-whitespace string is
  `.blank`, an unparsable string is `.malformed`, and a well-formed string is
  `.date d` with `d` its day number.
* Database tables are lists of rows; a transaction that commits is a pure
  function from the old `DB` to the new one, and a handler that errors
  before/inside the transaction leaves the `DB` unchanged (`applySave`).
* Go `float64` percentages are modelled as exact rationals; `math.Round` is
  `goRound` (round half away from zero).
-/

namespace Go2gether

/-- Status of one availability row (Postgres enum `availability_status`). -/
inductive AvailStatus where
  | free
  | flexible
  | busy
deriving DecidableEq, Repr

/-- Membership status of a `trip_members` row (`'accepted'` is the only value
the generation pipeline selects). -/
inductive MemberStatus where
  | accepted
  | pending
  | declined
deriving DecidableEq, Repr

/-- A row of the `trips` table, projected to the columns the availability
subsystem reads: id, creator and the inclusive date window. -/
structure Trip where
  id : Nat
  creator : Nat
  start : Int
  end_ : Int
deriving DecidableEq, Repr

/-- A row of the `trip_members` table (trip, user, status). -/
structure MemberRow where
  trip : Nat
  user : Nat
  status : MemberStatus
deriving DecidableEq, Repr

/-- A row of the `availabilities` table: `(trip_id, user_id, date, status)`. -/
structure AvailRow where
  trip : Nat
  user : Nat
  date : Int
  status : AvailStatus
deriving DecidableEq, Repr

/-- A row of the `available_periods` table, projected to the columns the
handlers write and read back (`id`/`created_at`/`flexible_count` carry no
claim-relevant information; `flexible_count` is always inserted as 0). -/
structure PeriodRow where
  trip : Nat
  periodNumber : Nat
  start : Int
  end_ : Int
  duration : Int
  freeCount : Int
  totalMembers : Int
  percent : ℚ
deriving DecidableEq, Repr

/-- The persistent state the three handlers touch. -/
structure DB where
  trips : List Trip
  members : List MemberRow
  avails : List AvailRow
  periods : List PeriodRow
deriving DecidableEq, Repr

/-- Outcome of trimming and parsing one entry of the request's `dates` array:
the Go loop trims the string, skips it if empty, errors if it is not
`YYYY-MM-DD`, and otherwise obtains a (midnight-UTC) date. -/
inductive RawDate where
  | blank
  | malformed
  | date (d : Int)
deriving DecidableEq, Repr

/-- One `utils.WriteErrorResponse` site of the modelled handlers. -/
inductive ApiErr where
  | unauthorized
  | tripNotFound
  | endBeforeStart
  | forbidden
  | emptyDates
  | badDateFormat
  | dateOutOfRange (d : Int)
  | noValidDates
  | invalidDateRange
  | noAcceptedMembers
deriving DecidableEq, Repr

/-- Go helper `daysInclusive`: `int(b.Sub(a).Hours()/24) + 1` on
midnight-UTC dates, i.e. `b - a + 1`. -/
def daysInclusive (a b : Int) : Int := b - a + 1

/-- The validation loop of `SaveAvailability`: walk the request entries in
order, skipping blanks, failing on the first malformed entry, failing on the
first date outside `[start, end_]`, and deduplicating silently (first
occurrence kept, order preserved). -/
def parseDates (start end_ : Int) : List RawDate → List Int → Except ApiErr (List Int)
  | [], acc => .ok acc
  | .blank :: rest, acc => parseDates start end_ rest acc
  | .malformed :: _, _ => .error .badDateFormat
  | .date d :: rest, acc =>
    if d < start ∨ end_ < d then .error (.dateOutOfRange d)
    else if d ∈ acc then parseDates start end_ rest acc
    else parseDates start end_ rest (acc ++ [d])

/-- Summary block of the `SaveAvailability` response. -/
structure AvailSummary where
  totalDates : Int
  submittedDates : Nat
deriving DecidableEq, Repr

/-- The `SaveAvailability` handler (POST `/api/trips/{id}/availability`):
auth, trip lookup, window sanity check, participant check (creator or any
`trip_members` row), non-empty body check, per-entry validation, then a
transaction that deletes every `availabilities` row of `(trip, user)` and
inserts one `free` row per validated date. -/
def saveAvailability (db : DB) (auth : Option Nat) (tripId : Nat)
    (dates : List RawDate) : Except ApiErr (DB × AvailSummary) :=
  match auth with
  | none => .error .unauthorized
  | some uid =>
    match db.trips.find? (fun t => t.id = tripId) with
    | none => .error .tripNotFound
    | some trip =>
      if trip.end_ < trip.start then .error .endBeforeStart
      else if ¬ (trip.creator = uid ∨
          db.members.any (fun m => m.trip = tripId ∧ m.user = uid)) then
        .error .forbidden
      else if dates.isEmpty then .error .emptyDates
      else
        match parseDates trip.start trip.end_ dates [] with
        | .error e => .error e
        | .ok valid =>
          if valid.isEmpty then .error .noValidDates
          else
            let kept := db.avails.filter
              (fun a => ¬ (a.trip = tripId ∧ a.user = uid))
            let inserted := valid.map
              (fun d => AvailRow.mk tripId uid d .free)
            .ok ({ db with avails := kept ++ inserted },
                 ⟨daysInclusive trip.start trip.end_, valid.length⟩)

/-- Effect of one `SaveAvailability` request on the database: an error leaves
the state exactly as it was (every failing response is written before the
transaction commits, and a failed transaction rolls back). -/
def applySave (db : DB) (auth : Option Nat) (tripId : Nat)
    (dates : List RawDate) : DB :=
  match saveAvailability db auth tripId dates with
  | .ok (db', _) => db'
  | .error _ => db

/-- Dates currently stored for one `(trip, user)` pair, in row order. -/
def storedDates (db : DB) (tripId uid : Nat) : List Int :=
  (db.avails.filter (fun a => a.trip = tripId ∧ a.user = uid)).map
    (fun a => a.date)

/-- One `(date, free_count)` entry of the daily aggregation query. -/
structure DayCount where
  date : Int
  freeCount : Int
deriving DecidableEq, Repr

/-- Model of `generate_series(start, end_, '1 day')`: empty when `end_ < start`,
otherwise every date of the inclusive window in ascending order. -/
def dateRange (start end_ : Int) : List Int :=
  if end_ < start then []
  else (List.range ((end_ - start).toNat + 1)).map
    (fun (i : Nat) => start + (i : Int))

/-- Model of `COUNT(*)` over the join `availabilities a JOIN trip_members tm` on
`(a.trip_id, a.user_id)` with `tm.status = 'accepted'`, restricted to
`a.trip_id = tripId AND a.status = 'free' AND a.date = d`: one joined row per
matching (availability row, member row) pair. -/
def freeCountOn (db : DB) (tripId : Nat) (d : Int) : Nat :=
  ((db.avails.filter (fun a =>
      a.trip = tripId ∧ a.status = .free ∧ a.date = d)).map
    (fun a => (db.members.filter (fun m =>
      m.trip = a.trip ∧ m.user = a.user ∧ m.status = .accepted)).length)).sum

/-- The daily aggregation CTE of `GenerateAvailablePeriods`: every date of the
trip window with its `free_count` (`COALESCE(..,0)` via the left join). -/
def aggregate (db : DB) (tripId : Nat) (start end_ : Int) : List DayCount :=
  (dateRange start end_).map (fun d => ⟨d, (freeCountOn db tripId d : Int)⟩)

/-- The in-memory `period` struct of `GenerateAvailablePeriods`. -/
structure RawPeriod where
  start : Int
  end_ : Int
  duration : Int
  minFree : Int
  totalM : Int
  percent : ℚ
deriving DecidableEq, Repr

/-- The `advance` closure: close the current run `[curStart, curEnd]` with
bottleneck `minFree`, appending a period only when its duration reaches
`minDays`. -/
def advance (minDays totalM : Int) (curStart curEnd minFree : Int)
    (acc : List RawPeriod) : List RawPeriod :=
  let dur := curEnd - curStart + 1
  if minDays ≤ dur then
    acc ++ [⟨curStart, curEnd, dur, minFree, totalM,
            ((minFree : ℚ) / (totalM : ℚ)) * 100⟩]
  else acc

/-- The gaps-and-islands loop of `GenerateAvailablePeriods` over the tail of
the qualifying-day list: extend the run while the next date is exactly
`curEnd + 1` (lowering the bottleneck as needed), otherwise close it and start
a fresh run at the next day; the final run is closed after the loop. -/
def groupLoop (minDays totalM : Int) :
    List DayCount → Int → Int → Int → List RawPeriod → List RawPeriod
  | [], curStart, curEnd, minFree, acc =>
    advance minDays totalM curStart curEnd minFree acc
  | d :: rest, curStart, curEnd, minFree, acc =>
    if d.date = curEnd + 1 then
      groupLoop minDays totalM rest curStart d.date (min minFree d.freeCount) acc
    else
      groupLoop minDays totalM rest d.date d.date d.freeCount
        (advance minDays totalM curStart curEnd minFree acc)

/-- Step 3's day predicate: `d.FreeCount >= in.MinAvailabilityMember`. -/
def qualifies (minAvail : Int) (d : DayCount) : Bool :=
  decide (minAvail ≤ d.freeCount)

/-- Steps 3–4 of `GenerateAvailablePeriods`: keep the days whose `free_count`
meets the threshold, then group consecutive dates into periods. -/
def extract (daily : List DayCount) (minAvail minDays totalM : Int) :
    List RawPeriod :=
  match daily.filter (qualifies minAvail) with
  | [] => []
  | p0 :: rest => groupLoop minDays totalM rest p0.date p0.date p0.freeCount []

/-- Split a day list into its maximal blocks of consecutive calendar dates: a
new block starts exactly where the next date is not the previous date plus
one. Stated from the spec's grouping rule (a date discontinuity closes the
current run); applied after the threshold filter, a removed non-qualifying
day also leaves a discontinuity that closes the run. -/
def splitAdj : List DayCount → List (List DayCount)
  | [] => []
  | [d] => [[d]]
  | d :: e :: rest =>
    match splitAdj (e :: rest) with
    | [] => [[d]]
    | g :: gs => if e.date = d.date + 1 then (d :: g) :: gs else [d] :: g :: gs

/-- Minimum `free_count` of a run, folded from an initial bottleneck. -/
def gMin (m : Int) (g : List DayCount) : Int :=
  g.foldl (fun acc x => min acc x.freeCount) m

/-- Close a run spanning `[s, e]` with bottleneck `mf`: it becomes a period
exactly when its duration `e - s + 1` reaches `minDays` (spec Step 4), with
`min_free = mf` (spec Step 3) and the §4.4 percentage formula. -/
def closeOpt (minDays totalM s e mf : Int) : Option RawPeriod :=
  if minDays ≤ e - s + 1 then
    some ⟨s, e, e - s + 1, mf, totalM, ((mf : ℚ) / (totalM : ℚ)) * 100⟩
  else none

/-- Period produced by one maximal run (spec Steps 3–4). -/
def mkSpecPeriod (minDays totalM : Int) : List DayCount → Option RawPeriod
  | [] => none
  | d :: ds =>
    closeOpt minDays totalM d.date ((ds.getLastD d).date) (gMin d.freeCount ds)

/-- Spec-side period extraction (§4.3 of the spec, Steps 1–4): filter the
days by the threshold, split the survivors into maximal runs of consecutive
calendar dates, and keep each run long enough, with its bottleneck count. -/
def extractSpec (daily : List DayCount) (minAvail minDays totalM : Int) :
    List RawPeriod :=
  (splitAdj (daily.filter (qualifies minAvail))).filterMap
    (mkSpecPeriod minDays totalM)

/-- Continuation of `extractSpec` under an open run `[s, e]` with bottleneck
`mf`: the first following block extends the run when it starts at `e + 1`,
otherwise the run closes as-is; later blocks are ordinary runs. -/
def specMerge (minDays totalM : Int) (s e mf : Int) :
    List (List DayCount) → List RawPeriod
  | [] => (closeOpt minDays totalM s e mf).toList
  | [] :: gs =>
    (closeOpt minDays totalM s e mf).toList ++
      gs.filterMap (mkSpecPeriod minDays totalM)
  | (d :: ds) :: gs =>
    if d.date = e + 1 then
      (closeOpt minDays totalM s ((ds.getLastD d).date)
          (gMin mf (d :: ds))).toList ++
        gs.filterMap (mkSpecPeriod minDays totalM)
    else
      (closeOpt minDays totalM s e mf).toList ++
        ((d :: ds) :: gs).filterMap (mkSpecPeriod minDays totalM)

/-- Sum of the `duration_days` of a list of periods. -/
def totalLen (ps : List RawPeriod) : Int :=
  (ps.map (fun p => p.duration)).sum

/-- Payout of a closing run of `j` days: it contributes its length exactly
when it passes the minimum-length filter. -/
def pay (minDays : Int) (j : Nat) : Int :=
  if minDays ≤ (j : Int) then (j : Int) else 0

/-- Total kept length of the runs of a (filtered) day list, scanned with the
same run state as `groupLoop`: `j` is the length of the open run and `last`
its final date. -/
def tkGo (minDays : Int) : Nat → Int → List DayCount → Int
  | j, _, [] => pay minDays j
  | j, last, d :: rest =>
    if d.date = last + 1 then tkGo minDays (j + 1) d.date rest
    else pay minDays j + tkGo minDays 1 d.date rest

/-- Total kept length of the qualifying runs of a gap-free day sequence,
scanned over the per-day qualifying flags. -/
def goScan (minDays : Int) : Nat → List Bool → Int
  | j, [] => pay minDays j
  | j, true :: tl => goScan minDays (j + 1) tl
  | j, false :: tl => pay minDays j + goScan minDays 0 tl

/-- A day list is gap-free starting at `s`: its dates are exactly
`s, s + 1, s + 2, ...` (the shape the daily aggregation always produces). -/
def gapFreeFrom (s : Int) : List DayCount → Prop
  | [] => True
  | d :: rest => d.date = s ∧ gapFreeFrom (s + 1) rest

/-- The comparison closure passed to `sort.SliceStable`: `min_free`
descending, then `duration` descending, then `start` ascending. -/
def goLess (a b : RawPeriod) : Bool :=
  if a.minFree ≠ b.minFree then decide (a.minFree > b.minFree)
  else if a.duration ≠ b.duration then decide (a.duration > b.duration)
  else decide (a.start < b.start)

/-- Model of `sort.SliceStable periods goLess`: a stable sort placing `a` before `b`
whenever `b` is not strictly less than `a`. -/
def rankSort (ps : List RawPeriod) : List RawPeriod :=
  ps.mergeSort (fun a b => ! goLess b a)

/-- The spec's rank order (§4.4): `min_free` descending, then `duration`
descending, then `start_date` ascending as the final tiebreak. -/
def rankedBefore (a b : RawPeriod) : Prop :=
  a.minFree > b.minFree ∨
    (a.minFree = b.minFree ∧
      (a.duration > b.duration ∨
        (a.duration = b.duration ∧ a.start ≤ b.start)))

/-- Model of `math.Round`: nearest integer, half away from zero. -/
def goRound (x : ℚ) : Int :=
  if x < 0 then -⌊-x + 1/2⌋ else ⌊x + 1/2⌋

/-- Model of `math.Round(x*100)/100`: round to two decimal places. -/
def round2 (x : ℚ) : ℚ := (goRound (x * 100) : ℚ) / 100

/-- One element of the `periods` array in the generation response. -/
structure RespPeriod where
  periodNumber : Nat
  start : Int
  end_ : Int
  duration : Int
  totalMembers : Int
  percent : ℚ
deriving DecidableEq, Repr

/-- The response payload of `GenerateAvailablePeriods` (`periods` + `stats`). -/
structure GenOut where
  periods : List RespPeriod
  totalPeriods : Nat
  allMembersDays : Nat
  totalMembers : Int
  minDays : Int
  minAvail : Int
deriving DecidableEq, Repr

/-- Model of `SELECT COUNT(1) FROM trip_members WHERE trip_id = $1 AND
status = 'accepted'`. -/
def acceptedCount (db : DB) (tripId : Nat) : Nat :=
  (db.members.filter
    (fun m => m.trip = tripId ∧ m.status = MemberStatus.accepted)).length

/-- The ranked period list of one generation run: extraction over the daily
aggregation, then the stable sort. -/
def genRanked (db : DB) (tripId : Nat) (trip : Trip) (minDays minAvail : Int) :
    List RawPeriod :=
  rankSort (extract (aggregate db tripId trip.start trip.end_) minAvail
    minDays ((acceptedCount db tripId : Nat) : Int))

/-- The `available_periods` rows inserted by one generation run: the ranked
periods numbered `i + 1` in sort order, raw percentage persisted. -/
def genNewRows (tripId : Nat) (ranked : List RawPeriod) : List PeriodRow :=
  ranked.enum.map (fun ip =>
    PeriodRow.mk tripId (ip.1 + 1) ip.2.start ip.2.end_ ip.2.duration
      ip.2.minFree ip.2.totalM ip.2.percent)

/-- The `periods` array of the generation response: numbered `i + 1`,
percentage rounded to two decimals (`math.Round(p.Percent*100)/100`). -/
def genRespPeriods (ranked : List RawPeriod) : List RespPeriod :=
  ranked.enum.map (fun ip =>
    RespPeriod.mk (ip.1 + 1) ip.2.start ip.2.end_ ip.2.duration ip.2.totalM
      (round2 ip.2.percent))

/-- The `GenerateAvailablePeriods` handler (POST
`/api/trips/{id}/availability/generate-periods`): auth, parameter defaulting,
trip lookup, window check, accepted-member count (rejecting zero), the daily
aggregation query, threshold filter + grouping, stable ranking, transactional
replace of the trip's `available_periods` rows (numbered 1..N in sort order,
raw percentage persisted), and the response (percentage rounded to two
decimals). The caller's identity is read only to require authentication. -/
def generateAvailablePeriods (db : DB) (auth : Option Nat) (tripId : Nat)
    (minDaysIn minAvailIn : Int) : Except ApiErr (DB × GenOut) :=
  match auth with
  | none => .error .unauthorized
  | some _ =>
    let minDays := if minDaysIn ≤ 0 then 1 else minDaysIn
    let minAvail := if minAvailIn ≤ 0 then 1 else minAvailIn
    match db.trips.find? (fun t => t.id = tripId) with
    | none => .error .tripNotFound
    | some trip =>
      if trip.end_ < trip.start then .error .invalidDateRange
      else if acceptedCount db tripId = 0 then .error .noAcceptedMembers
      else
        let ranked := genRanked db tripId trip minDays minAvail
        let allDays := ((aggregate db tripId trip.start trip.end_).filter
          (fun d => d.freeCount = (acceptedCount db tripId : Int))).length
        let keptRows := db.periods.filter (fun p => ¬ p.trip = tripId)
        let db' := { db with periods := keptRows ++ genNewRows tripId ranked }
        .ok (db', ⟨genRespPeriods ranked, ranked.length, allDays,
                   (acceptedCount db tripId : Int), minDays, minAvail⟩)

/-- One element of the `periods` array of the listing response. -/
structure PeriodDTO where
  periodNumber : Nat
  start : Int
  end_ : Int
  duration : Int
  totalMembers : Int
  percent : ℚ
deriving DecidableEq, Repr

/-- Model of `ORDER BY period_number ASC, start_date ASC` of the listing query. -/
def listOrder (a b : PeriodRow) : Bool :=
  if a.periodNumber ≠ b.periodNumber then decide (a.periodNumber < b.periodNumber)
  else decide (a.start ≤ b.start)

/-- The `GetAvailablePeriods` handler (GET
`/api/trips/{id}/available-periods`): auth, trip-existence check, then a
plain read of the trip's `available_periods` rows ordered by
`(period_number, start_date)`; the stored percentage is returned as-is
(`COALESCE`d to 0 only for legacy NULL rows, which this model never writes). -/
def getAvailablePeriods (db : DB) (auth : Option Nat) (tripId : Nat) :
    Except ApiErr (List PeriodDTO) :=
  match auth with
  | none => .error .unauthorized
  | some _ =>
    if db.trips.any (fun t => t.id = tripId) then
      .ok (((db.periods.filter (fun p => p.trip = tripId)).mergeSort
          listOrder).map (fun p =>
        PeriodDTO.mk p.periodNumber p.start p.end_ p.duration p.totalMembers
          p.percent))
    else .error .tripNotFound

theorem groupLoop_nil (minDays totalM s e mf : Int) (acc : List RawPeriod) :
    groupLoop minDays totalM [] s e mf acc =
      advance minDays totalM s e mf acc := rfl

theorem groupLoop_cons (minDays totalM : Int) (d : DayCount)
    (rest : List DayCount) (s e mf : Int) (acc : List RawPeriod) :
    groupLoop minDays totalM (d :: rest) s e mf acc =
      if d.date = e + 1 then
        groupLoop minDays totalM rest s d.date (min mf d.freeCount) acc
      else
        groupLoop minDays totalM rest d.date d.date d.freeCount
          (advance minDays totalM s e mf acc) := rfl

theorem splitAdj_nil : splitAdj [] = [] := rfl

theorem splitAdj_one (d : DayCount) : splitAdj [d] = [[d]] := rfl

theorem splitAdj_cons₂ (d e : DayCount) (rest : List DayCount) :
    splitAdj (d :: e :: rest) =
      match splitAdj (e :: rest) with
      | [] => [[d]]
      | g :: gs =>
        if e.date = d.date + 1 then (d :: g) :: gs else [d] :: g :: gs := rfl

theorem specMerge_nil (minDays totalM s e mf : Int) :
    specMerge minDays totalM s e mf [] =
      (closeOpt minDays totalM s e mf).toList := rfl

theorem specMerge_cons (minDays totalM s e mf : Int) (d : DayCount)
    (ds : List DayCount) (gs : List (List DayCount)) :
    specMerge minDays totalM s e mf ((d :: ds) :: gs) =
      if d.date = e + 1 then
        (closeOpt minDays totalM s ((ds.getLastD d).date)
            (gMin mf (d :: ds))).toList ++
          gs.filterMap (mkSpecPeriod minDays totalM)
      else
        (closeOpt minDays totalM s e mf).toList ++
          ((d :: ds) :: gs).filterMap (mkSpecPeriod minDays totalM) := rfl

theorem mkSpecPeriod_cons (minDays totalM : Int) (d : DayCount)
    (ds : List DayCount) :
    mkSpecPeriod minDays totalM (d :: ds) =
      closeOpt minDays totalM d.date ((ds.getLastD d).date)
        (gMin d.freeCount ds) := rfl

theorem filterMap_cons_toList {α β : Type} (f : α → Option β) (a : α)
    (l : List α) :
    List.filterMap f (a :: l) = (f a).toList ++ List.filterMap f l := by
  cases h : f a <;> simp [h]

theorem advance_eq_closeOpt (minDays totalM s e mf : Int) (acc : List RawPeriod) :
    advance minDays totalM s e mf acc =
      acc ++ (closeOpt minDays totalM s e mf).toList := by
  unfold advance closeOpt
  split
  · rename_i h
    rw [if_pos h]
    simp
  · rename_i h
    rw [if_neg h]
    simp

theorem splitAdj_cons :
    ∀ (xs : List DayCount) (x : DayCount),
      ∃ t gs, splitAdj (x :: xs) = (x :: t) :: gs := by
  intro xs
  induction xs with
  | nil => intro x; exact ⟨[], [], rfl⟩
  | cons e rest ih =>
    intro x
    obtain ⟨t, gs, h⟩ := ih e
    by_cases hadj : e.date = x.date + 1
    · exact ⟨e :: t, gs, by rw [splitAdj_cons₂, h]; simp [hadj]⟩
    · exact ⟨[], (e :: t) :: gs, by rw [splitAdj_cons₂, h]; simp [hadj]⟩

theorem gMin_cons (m : Int) (d : DayCount) (l : List DayCount) :
    gMin m (d :: l) = gMin (min m d.freeCount) l := rfl

theorem getLastQ_cons {α : Type} (y x : α) (l : List α) :
    ((y :: l).getLast?.getD x) = l.getLast?.getD y := by
  rw [← List.getLastD_eq_getLast?, ← List.getLastD_eq_getLast?,
    List.getLastD_cons]

theorem groupLoop_eq_specMerge (minDays totalM : Int) :
    ∀ (ds : List DayCount) (s e mf : Int) (acc : List RawPeriod),
      groupLoop minDays totalM ds s e mf acc =
        acc ++ specMerge minDays totalM s e mf (splitAdj ds) := by
  intro ds
  induction ds with
  | nil =>
    intro s e mf acc
    rw [groupLoop_nil, advance_eq_closeOpt]
    rfl
  | cons d rest ih =>
    intro s e mf acc
    rw [groupLoop_cons]
    cases rest with
    | nil =>
      by_cases hadj : d.date = e + 1
      · rw [if_pos hadj, groupLoop_nil, advance_eq_closeOpt]
        rw [splitAdj_one, specMerge_cons, if_pos hadj]
        simp [gMin]
      · rw [if_neg hadj, groupLoop_nil, advance_eq_closeOpt,
          advance_eq_closeOpt]
        rw [splitAdj_one, specMerge_cons, if_neg hadj]
        simp [filterMap_cons_toList, mkSpecPeriod_cons, gMin]
    | cons e2 rest2 =>
      obtain ⟨t, gs, hsp⟩ := splitAdj_cons rest2 e2
      rw [splitAdj_cons₂, hsp]
      dsimp only
      by_cases hadj : d.date = e + 1 <;> by_cases hadj2 : e2.date = d.date + 1
      · rw [if_pos hadj, if_pos hadj2, ih, hsp, specMerge_cons,
          specMerge_cons, if_pos hadj2, if_pos hadj]
        simp [gMin_cons, getLastQ_cons]
      · rw [if_pos hadj, if_neg hadj2, ih, hsp, specMerge_cons,
          specMerge_cons, if_neg hadj2, if_pos hadj]
        simp [filterMap_cons_toList, mkSpecPeriod_cons, gMin_cons,
          getLastQ_cons, gMin]
      · rw [if_neg hadj, if_pos hadj2, ih, hsp, specMerge_cons,
          specMerge_cons, if_pos hadj2, if_neg hadj, advance_eq_closeOpt]
        simp [filterMap_cons_toList, mkSpecPeriod_cons, gMin_cons,
          getLastQ_cons, gMin]
      · rw [if_neg hadj, if_neg hadj2, ih, hsp, specMerge_cons,
          specMerge_cons, if_neg hadj2, if_neg hadj, advance_eq_closeOpt]
        simp [filterMap_cons_toList, mkSpecPeriod_cons, gMin_cons,
          getLastQ_cons, gMin]

theorem extract_eq_extractSpec
    (daily : List DayCount) (minAvail minDays totalM : Int) :
    extract daily minAvail minDays totalM =
      extractSpec daily minAvail minDays totalM := by
  unfold extract extractSpec
  cases hf : daily.filter (qualifies minAvail) with
  | nil => rfl
  | cons p0 rest =>
    dsimp only
    rw [groupLoop_eq_specMerge, List.nil_append]
    cases rest with
    | nil =>
      rw [splitAdj_nil, specMerge_nil, splitAdj_one]
      simp [filterMap_cons_toList, mkSpecPeriod_cons, gMin]
    | cons e2 rest2 =>
      obtain ⟨t, gs, hsp⟩ := splitAdj_cons rest2 e2
      rw [hsp, splitAdj_cons₂, hsp]
      dsimp only
      by_cases hadj : e2.date = p0.date + 1
      · rw [specMerge_cons, if_pos hadj, if_pos hadj]
        simp [filterMap_cons_toList, mkSpecPeriod_cons, gMin_cons,
          getLastQ_cons, gMin]
      · rw [specMerge_cons, if_neg hadj, if_neg hadj]
        simp [filterMap_cons_toList, mkSpecPeriod_cons, gMin_cons,
          getLastQ_cons, gMin]

theorem splitAdj_groups :
    ∀ (L : List DayCount), ∀ g ∈ splitAdj L,
      g ≠ [] ∧ g.Chain' (fun a b => b.date = a.date + 1) := by
  intro L
  induction L with
  | nil => simp [splitAdj]
  | cons x xs ih =>
    cases xs with
    | nil =>
      intro g hg
      simp [splitAdj] at hg
      simp [hg]
    | cons e rest =>
      obtain ⟨t, gs, hsp⟩ := splitAdj_cons rest e
      intro g hg
      by_cases hadj : e.date = x.date + 1 <;>
        simp [splitAdj, hsp, hadj] at hg
      · rcases hg with hg | hg
        · subst hg
          have hhead := ih (e :: t) (by simp [hsp])
          refine ⟨by simp, ?_⟩
          rw [List.chain'_cons]
          exact ⟨hadj, hhead.2⟩
        · exact ih g (by simp [hsp, hg])
      · rcases hg with hg | hg | hg
        · simp [hg]
        · subst hg
          exact ih (e :: t) (by simp [hsp])
        · exact ih g (by simp [hsp, hg])

theorem pay_nonneg (m : Int) (j : Nat) : 0 ≤ pay m j := by
  unfold pay
  split <;> omega

theorem pay_le (m : Int) (j : Nat) : pay m j ≤ (j : Int) := by
  unfold pay
  split <;> omega

theorem pay_zero (m : Int) : pay m 0 = 0 := by
  unfold pay
  split <;> omega

theorem pay_pos_le {m : Int} {j : Nat} (h : 0 < pay m j) : m ≤ (j : Int) := by
  unfold pay at h
  split at h <;> omega

theorem pay_of_le {m : Int} {j : Nat} (h : m ≤ (j : Int)) :
    pay m j = (j : Int) := by
  unfold pay
  split <;> omega

theorem totalLen_nil : totalLen [] = 0 := rfl

theorem totalLen_append (l₁ l₂ : List RawPeriod) :
    totalLen (l₁ ++ l₂) = totalLen l₁ + totalLen l₂ := by
  unfold totalLen
  rw [List.map_append, List.sum_append]

theorem tkGo_nil (m : Int) (j : Nat) (last : Int) :
    tkGo m j last [] = pay m j := rfl

theorem tkGo_cons (m : Int) (j : Nat) (last : Int) (d : DayCount)
    (rest : List DayCount) :
    tkGo m j last (d :: rest) =
      if d.date = last + 1 then tkGo m (j + 1) d.date rest
      else pay m j + tkGo m 1 d.date rest := rfl

theorem goScan_nil (m : Int) (j : Nat) : goScan m j [] = pay m j := rfl

theorem goScan_true (m : Int) (j : Nat) (tl : List Bool) :
    goScan m j (true :: tl) = goScan m (j + 1) tl := rfl

theorem goScan_false (m : Int) (j : Nat) (tl : List Bool) :
    goScan m j (false :: tl) = pay m j + goScan m 0 tl := rfl

theorem totalLen_advance (minDays totalM s e mf : Int) (acc : List RawPeriod) :
    totalLen (advance minDays totalM s e mf acc) =
      totalLen acc + (if minDays ≤ e - s + 1 then e - s + 1 else 0) := by
  rw [advance_eq_closeOpt, totalLen_append]
  by_cases hc : minDays ≤ e - s + 1 <;> simp [closeOpt, hc, totalLen]

theorem totalLen_groupLoop (minDays totalM : Int) :
    ∀ (ds : List DayCount) (s e mf : Int) (acc : List RawPeriod) (j : Nat),
      e - s + 1 = (j : Int) →
      totalLen (groupLoop minDays totalM ds s e mf acc) =
        totalLen acc + tkGo minDays j e ds := by
  intro ds
  induction ds with
  | nil =>
    intro s e mf acc j hj
    rw [groupLoop_nil, totalLen_advance, hj, tkGo_nil]
    rfl
  | cons d rest ih =>
    intro s e mf acc j hj
    rw [groupLoop_cons, tkGo_cons]
    by_cases hadj : d.date = e + 1
    · rw [if_pos hadj, if_pos hadj, ih s d.date _ acc (j + 1) (by omega)]
    · rw [if_neg hadj, if_neg hadj,
        ih d.date d.date _ (advance minDays totalM s e mf acc) 1 (by omega),
        totalLen_advance, hj]
      unfold pay
      split <;> ring

theorem totalLen_extract (daily : List DayCount) (minAvail minDays totalM : Int)
    (last : Int) :
    totalLen (extract daily minAvail minDays totalM) =
      tkGo minDays 0 last (daily.filter (qualifies minAvail)) := by
  unfold extract
  cases hf : daily.filter (qualifies minAvail) with
  | nil =>
    rw [tkGo_nil, totalLen_nil, pay_zero]
  | cons p0 rest =>
    dsimp only
    rw [totalLen_groupLoop minDays totalM rest p0.date p0.date p0.freeCount []
      1 (by omega), totalLen_nil, zero_add, tkGo_cons]
    split
    · norm_num
    · rw [pay_zero, zero_add]

theorem tkGo_filter_goScan (m : Int) (q : DayCount → Bool) :
    ∀ (daily : List DayCount) (s : Int), gapFreeFrom s daily →
      ∀ (j : Nat) (last : Int),
        (last + 1 = s →
          tkGo m j last (daily.filter q) = goScan m j (daily.map q)) ∧
        (last + 1 < s →
          tkGo m j last (daily.filter q) =
            pay m j + goScan m 0 (daily.map q)) := by
  intro daily
  induction daily with
  | nil =>
    intro s _ j last
    constructor <;> intro _ <;> simp [tkGo, goScan, pay_zero]
  | cons d rest ih =>
    intro s hgf j last
    obtain ⟨hd, hrest⟩ := hgf
    have ihrest := ih (s + 1) hrest
    constructor
    · intro hlast
      by_cases hq : q d
      · rw [List.filter_cons_of_pos hq, List.map_cons, hq]
        rw [tkGo_cons, if_pos (by omega), goScan_true]
        exact ((ihrest (j + 1) d.date).1 (by omega))
      · rw [List.filter_cons_of_neg (by simpa using hq), List.map_cons]
        rw [(by simpa using hq : q d = false), goScan_false]
        exact (ihrest j last).2 (by omega)
    · intro hlast
      by_cases hq : q d
      · rw [List.filter_cons_of_pos hq, List.map_cons, hq]
        rw [tkGo_cons, if_neg (by omega), goScan_true, zero_add,
          (ihrest 1 d.date).1 (by omega)]
      · rw [List.filter_cons_of_neg (by simpa using hq), List.map_cons]
        rw [(by simpa using hq : q d = false), goScan_false, pay_zero,
          zero_add]
        exact (ihrest j last).2 (by omega)

theorem pay_bound (m D : Int) (j k : Nat) (hD : 0 ≤ D)
    (hjk : D + (j : Int) ≤ (k : Int)) (hDm : D = 0 ∨ m ≤ D) :
    D + pay m j ≤ pay m k := by
  have h1 := pay_nonneg m j
  have h2 := pay_nonneg m k
  have h3 := pay_le m j
  by_cases hp : m ≤ (k : Int)
  · have h5 := pay_of_le hp
    omega
  · have h6 : pay m j = 0 := by
      unfold pay
      rw [if_neg (by omega)]
    rcases hDm with h | h <;> omega

theorem payD_inv (m D : Int) (j : Nat) (hD : 0 ≤ D)
    (hDm : D = 0 ∨ m ≤ D) :
    D + pay m j = 0 ∨ m ≤ D + pay m j := by
  have h1 := pay_nonneg m j
  by_cases hp : m ≤ (j : Int)
  · have h5 := pay_of_le hp
    right
    omega
  · have h6 : pay m j = 0 := by
      unfold pay
      rw [if_neg hp]
    rcases hDm with h | h
    · left; omega
    · right; omega

theorem goScan_mono (m : Int) :
    ∀ {cs bs : List Bool},
      List.Forall₂ (fun c b => c = true → b = true) cs bs →
      ∀ (D : Int) (j k : Nat), 0 ≤ D → D + (j : Int) ≤ (k : Int) →
        (D = 0 ∨ m ≤ D) →
        D + goScan m j cs ≤ goScan m k bs := by
  intro cs bs hf
  induction hf with
  | nil =>
    intro D j k hD hjk hDm
    rw [goScan_nil, goScan_nil]
    exact pay_bound m D j k hD hjk hDm
  | cons hcb htail ih =>
    intro D j k hD hjk hDm
    rename_i c b cs' bs'
    cases b
    · have hc : c = false := by
        cases c
        · rfl
        · exact absurd (hcb rfl) (by simp)
      subst hc
      rw [goScan_false, goScan_false]
      have hrec := ih 0 0 0 le_rfl (by omega) (Or.inl rfl)
      simp only [Nat.cast_zero, zero_add] at hrec
      have hpk := pay_bound m D j k hD hjk hDm
      linarith
    · cases c
      · rw [goScan_false, goScan_true]
        have h3 := pay_le m j
        have h1 := pay_nonneg m j
        have hrec := ih (D + pay m j) 0 (k + 1) (by omega)
          (by push_cast; omega) (payD_inv m D j hD hDm)
        simp only [Nat.cast_zero, add_zero] at hrec
        linarith
      · rw [goScan_true, goScan_true]
        exact ih D (j + 1) (k + 1) hD (by push_cast; omega) hDm

theorem chain'_gapFreeFrom :
    ∀ (rest : List DayCount) (d : DayCount),
      (d :: rest).Chain' (fun a b => b.date = a.date + 1) →
      gapFreeFrom d.date (d :: rest) := by
  intro rest
  induction rest with
  | nil => intro d _; exact ⟨rfl, trivial⟩
  | cons e rest' ih =>
    intro d hchain
    rw [List.chain'_cons] at hchain
    obtain ⟨he, hrest⟩ := hchain
    refine ⟨rfl, ?_⟩
    have := ih e hrest
    rwa [he] at this

theorem forall₂_qualifies (daily : List DayCount) {t1 t2 : Int}
    (h : t1 ≤ t2) :
    List.Forall₂ (fun c b => c = true → b = true)
      (daily.map (qualifies t2)) (daily.map (qualifies t1)) := by
  induction daily with
  | nil => exact List.Forall₂.nil
  | cons d rest ih =>
    refine List.Forall₂.cons ?_ ih
    intro hq
    simp only [qualifies, decide_eq_true_eq] at hq ⊢
    omega

theorem extract_totalLen_mono (daily : List DayCount)
    (t1 t2 minDays totalM : Int) (ht : t1 ≤ t2)
    (hgf : daily.Chain' (fun a b => b.date = a.date + 1)) :
    totalLen (extract daily t2 minDays totalM) ≤
      totalLen (extract daily t1 minDays totalM) := by
  cases daily with
  | nil => simp [extract, totalLen]
  | cons d0 rest =>
    have hg := chain'_gapFreeFrom rest d0 hgf
    rw [totalLen_extract (d0 :: rest) t2 minDays totalM (d0.date - 1),
      totalLen_extract (d0 :: rest) t1 minDays totalM (d0.date - 1)]
    rw [((tkGo_filter_goScan minDays (qualifies t2) (d0 :: rest) d0.date hg
      0 (d0.date - 1)).1 (by omega))]
    rw [((tkGo_filter_goScan minDays (qualifies t1) (d0 :: rest) d0.date hg
      0 (d0.date - 1)).1 (by omega))]
    have := goScan_mono minDays (forall₂_qualifies (d0 :: rest) ht) 0 0 0
      le_rfl (by omega) (Or.inl rfl)
    simpa using this

theorem notLess_iff (a b : RawPeriod) :
    ((! goLess b a) = true) ↔ rankedBefore a b := by
  unfold goLess rankedBefore
  split_ifs with h1 h2 <;>
    simp only [Bool.not_eq_true', decide_eq_false_iff_not, not_lt,
      decide_eq_true_eq] <;>
    omega

theorem rankedBefore_trans {a b c : RawPeriod} (h1 : rankedBefore a b)
    (h2 : rankedBefore b c) : rankedBefore a c := by
  unfold rankedBefore at h1 h2 ⊢
  omega

theorem rankedBefore_total (a b : RawPeriod) :
    rankedBefore a b ∨ rankedBefore b a := by
  unfold rankedBefore
  omega

theorem rankSort_sorted (ps : List RawPeriod) :
    (rankSort ps).Pairwise rankedBefore := by
  have h := @List.sorted_mergeSort RawPeriod (fun a b => ! goLess b a)
    (fun a b c hab hbc =>
      (notLess_iff a c).2
        (rankedBefore_trans ((notLess_iff a b).1 hab)
          ((notLess_iff b c).1 hbc)))
    (fun a b => by
      rcases rankedBefore_total a b with h | h
      · simp [(notLess_iff a b).2 h]
      · simp [(notLess_iff b a).2 h])
    ps
  exact h.imp (fun hx => (notLess_iff _ _).1 hx)

theorem rankSort_perm (ps : List RawPeriod) : (rankSort ps).Perm ps :=
  List.mergeSort_perm ps _

theorem rankSort_length (ps : List RawPeriod) :
    (rankSort ps).length = ps.length :=
  (rankSort_perm ps).length_eq

theorem enum_numbers {α : Type} (l : List α) :
    l.enum.map (fun ip => ip.1 + 1) = List.range' 1 l.length := by
  have h : (fun ip : Nat × α => ip.1 + 1) =
      (fun n : Nat => 1 + n) ∘ Prod.fst := by
    funext ip
    simp [Nat.add_comm]
  rw [h, ← List.map_map, List.enum_map_fst, List.range_eq_range',
    List.map_add_range']

theorem enum_proj {α β : Type} (l : List α) (h : α → β) :
    l.enum.map (fun ip => h ip.2) = l.map h := by
  have heq : (fun ip : Nat × α => h ip.2) = h ∘ Prod.snd := rfl
  rw [heq, ← List.map_map, List.enum_map_snd]

theorem saveAvailability_ok_mk {db : DB} {uid tripId : Nat}
    {dates : List RawDate} {trip : Trip} {valid : List Int}
    (hfind : db.trips.find? (fun t => t.id = tripId) = some trip)
    (hw : ¬ trip.end_ < trip.start)
    (hmem : trip.creator = uid ∨
      db.members.any (fun m => m.trip = tripId ∧ m.user = uid))
    (hne : dates ≠ [])
    (hparse : parseDates trip.start trip.end_ dates [] = .ok valid)
    (hvne : valid ≠ []) :
    saveAvailability db (some uid) tripId dates =
      .ok (DB.mk db.trips db.members
             (db.avails.filter (fun a => ¬ (a.trip = tripId ∧ a.user = uid)) ++
               valid.map (fun d => AvailRow.mk tripId uid d .free))
             db.periods,
           ⟨daysInclusive trip.start trip.end_, valid.length⟩) := by
  unfold saveAvailability
  rw [hfind]
  dsimp only
  rw [if_neg hw, if_neg (not_not_intro hmem),
    if_neg (by simp [List.isEmpty_iff, hne]), hparse]
  dsimp only
  rw [if_neg (by simp [List.isEmpty_iff, hvne])]

theorem saveAvailability_ok_inv {db : DB} {uid tripId : Nat}
    {dates : List RawDate} {db' : DB} {s : AvailSummary} :
    saveAvailability db (some uid) tripId dates = .ok (db', s) →
    ∃ trip valid,
      db.trips.find? (fun t => t.id = tripId) = some trip ∧
      ¬ trip.end_ < trip.start ∧
      (trip.creator = uid ∨
        db.members.any (fun m => m.trip = tripId ∧ m.user = uid)) ∧
      dates ≠ [] ∧
      parseDates trip.start trip.end_ dates [] = .ok valid ∧
      valid ≠ [] ∧
      db' = DB.mk db.trips db.members
          (db.avails.filter (fun a => ¬ (a.trip = tripId ∧ a.user = uid)) ++
            valid.map (fun d => AvailRow.mk tripId uid d .free))
          db.periods := by
  intro h
  unfold saveAvailability at h
  cases hfind : db.trips.find? (fun t => t.id = tripId) with
  | none => rw [hfind] at h; exact absurd h (by simp)
  | some trip =>
    rw [hfind] at h
    dsimp only at h
    by_cases hw : trip.end_ < trip.start
    · rw [if_pos hw] at h; exact absurd h (by simp)
    rw [if_neg hw] at h
    by_cases hmem : trip.creator = uid ∨
      db.members.any (fun m => m.trip = tripId ∧ m.user = uid)
    swap
    · rw [if_pos hmem] at h; exact absurd h (by simp)
    rw [if_neg (not_not_intro hmem)] at h
    by_cases hne : dates.isEmpty
    · rw [if_pos hne] at h; exact absurd h (by simp)
    rw [if_neg hne] at h
    cases hparse : parseDates trip.start trip.end_ dates [] with
    | error e => rw [hparse] at h; exact absurd h (by simp)
    | ok valid =>
      rw [hparse] at h
      dsimp only at h
      by_cases hvne : valid.isEmpty
      · rw [if_pos hvne] at h; exact absurd h (by simp)
      rw [if_neg hvne] at h
      refine ⟨trip, valid, rfl, hw, hmem, by simpa [List.isEmpty_iff] using hne,
        hparse, by simpa [List.isEmpty_iff] using hvne, ?_⟩
      exact (congrArg Prod.fst (Except.ok.inj h)).symm

theorem storedDates_replaced (db : DB) (tripId uid : Nat) (valid : List Int) :
    storedDates
        (DB.mk db.trips db.members
          (db.avails.filter (fun a => ¬ (a.trip = tripId ∧ a.user = uid)) ++
            valid.map (fun d => AvailRow.mk tripId uid d .free))
          db.periods) tripId uid =
      valid := by
  unfold storedDates
  rw [List.filter_append]
  have h1 : (db.avails.filter
      (fun a => ¬ (a.trip = tripId ∧ a.user = uid))).filter
      (fun a => a.trip = tripId ∧ a.user = uid) = [] := by
    rw [List.filter_filter]
    apply List.filter_eq_nil_iff.2
    intro a _
    simp only [Bool.and_eq_true, decide_eq_true_eq, not_and]
    intro hcon
    simp [hcon.1, hcon.2]
  rw [h1, List.nil_append, List.filter_map, List.map_map]
  simp [Function.comp_def]

theorem generate_ok_mk {db : DB} {uid tripId : Nat} {mdIn maIn : Int}
    {trip : Trip}
    (hfind : db.trips.find? (fun tr => tr.id = tripId) = some trip)
    (hw : ¬ trip.end_ < trip.start)
    (hmm : acceptedCount db tripId ≠ 0) :
    generateAvailablePeriods db (some uid) tripId mdIn maIn =
      .ok (DB.mk db.trips db.members db.avails
             (db.periods.filter (fun p => ¬ p.trip = tripId) ++
               genNewRows tripId (genRanked db tripId trip
                 (if mdIn ≤ 0 then 1 else mdIn)
                 (if maIn ≤ 0 then 1 else maIn))),
           GenOut.mk
             (genRespPeriods (genRanked db tripId trip
               (if mdIn ≤ 0 then 1 else mdIn)
               (if maIn ≤ 0 then 1 else maIn)))
             (genRanked db tripId trip (if mdIn ≤ 0 then 1 else mdIn)
               (if maIn ≤ 0 then 1 else maIn)).length
             ((aggregate db tripId trip.start trip.end_).filter
               (fun d => d.freeCount = (acceptedCount db tripId : Int))).length
             (acceptedCount db tripId : Int)
             (if mdIn ≤ 0 then 1 else mdIn)
             (if maIn ≤ 0 then 1 else maIn)) := by
  unfold generateAvailablePeriods
  dsimp only
  rw [hfind]
  dsimp only
  rw [if_neg hw, if_neg hmm]

theorem generate_ok_inv {db : DB} {auth : Option Nat} {tripId : Nat}
    {mdIn maIn : Int} {db' : DB} {out : GenOut} :
    generateAvailablePeriods db auth tripId mdIn maIn = .ok (db', out) →
    ∃ uid trip,
      auth = some uid ∧
      db.trips.find? (fun tr => tr.id = tripId) = some trip ∧
      ¬ trip.end_ < trip.start ∧
      acceptedCount db tripId ≠ 0 ∧
      db' = DB.mk db.trips db.members db.avails
        (db.periods.filter (fun p => ¬ p.trip = tripId) ++
          genNewRows tripId (genRanked db tripId trip
            (if mdIn ≤ 0 then 1 else mdIn) (if maIn ≤ 0 then 1 else maIn))) ∧
      out = GenOut.mk
        (genRespPeriods (genRanked db tripId trip
          (if mdIn ≤ 0 then 1 else mdIn) (if maIn ≤ 0 then 1 else maIn)))
        (genRanked db tripId trip (if mdIn ≤ 0 then 1 else mdIn)
          (if maIn ≤ 0 then 1 else maIn)).length
        ((aggregate db tripId trip.start trip.end_).filter
          (fun d => d.freeCount = (acceptedCount db tripId : Int))).length
        (acceptedCount db tripId : Int)
        (if mdIn ≤ 0 then 1 else mdIn)
        (if maIn ≤ 0 then 1 else maIn) := by
  intro h
  cases auth with
  | none => exact absurd h (by simp [generateAvailablePeriods])
  | some uid =>
    cases hfind : db.trips.find? (fun tr => tr.id = tripId) with
    | none =>
      unfold generateAvailablePeriods at h
      rw [hfind] at h
      exact absurd h (by simp)
    | some trip =>
      by_cases hw : trip.end_ < trip.start
      · unfold generateAvailablePeriods at h
        rw [hfind] at h
        dsimp only at h
        rw [if_pos hw] at h
        exact absurd h (by simp)
      by_cases hmm : acceptedCount db tripId = 0
      · unfold generateAvailablePeriods at h
        rw [hfind] at h
        dsimp only at h
        rw [if_neg hw, if_pos hmm] at h
        exact absurd h (by simp)
      rw [generate_ok_mk hfind hw hmm] at h
      obtain ⟨h1, h2⟩ := Prod.mk.injEq .. ▸ Except.ok.inj h
      exact ⟨uid, trip, rfl, rfl, hw, hmm, h1.symm, h2.symm⟩

theorem generate_err_inv {db : DB} {auth : Option Nat} {tripId : Nat}
    {mdIn maIn : Int} {e : ApiErr} :
    generateAvailablePeriods db auth tripId mdIn maIn = .error e →
    e = .unauthorized ∨ e = .tripNotFound ∨ e = .invalidDateRange ∨
      e = .noAcceptedMembers := by
  intro h
  cases auth with
  | none =>
    left
    unfold generateAvailablePeriods at h
    exact (Except.error.inj h).symm
  | some uid =>
    unfold generateAvailablePeriods at h
    dsimp only at h
    cases hfind : db.trips.find? (fun tr => tr.id = tripId) with
    | none =>
      rw [hfind] at h
      right; left
      exact (Except.error.inj h).symm
    | some trip =>
      rw [hfind] at h
      dsimp only at h
      by_cases hw : trip.end_ < trip.start
      · rw [if_pos hw] at h
        right; right; left
        exact (Except.error.inj h).symm
      rw [if_neg hw] at h
      by_cases hmm : acceptedCount db tripId = 0
      · rw [if_pos hmm] at h
        right; right; right
        exact (Except.error.inj h).symm
      · rw [if_neg hmm] at h
        exact absurd h (by simp)

theorem getPeriods_ok_mk {db : DB} {uid tripId : Nat}
    (hex : db.trips.any (fun tr => tr.id = tripId)) :
    getAvailablePeriods db (some uid) tripId =
      .ok (((db.periods.filter (fun p => p.trip = tripId)).mergeSort
          listOrder).map (fun p =>
        PeriodDTO.mk p.periodNumber p.start p.end_ p.duration p.totalMembers
          p.percent)) := by
  unfold getAvailablePeriods
  dsimp only
  rw [if_pos hex]

theorem getPeriods_err_inv {db : DB} {auth : Option Nat} {tripId : Nat}
    {e : ApiErr} :
    getAvailablePeriods db auth tripId = .error e →
    e = .unauthorized ∨ e = .tripNotFound := by
  intro h
  cases auth with
  | none =>
    left
    unfold getAvailablePeriods at h
    exact (Except.error.inj h).symm
  | some uid =>
    unfold getAvailablePeriods at h
    dsimp only at h
    by_cases hex : db.trips.any (fun tr => tr.id = tripId)
    · rw [if_pos hex] at h
      exact absurd h (by simp)
    · rw [if_neg hex] at h
      right
      exact (Except.error.inj h).symm

theorem chain'_range' :
    ∀ (n s : Nat), (List.range' s n).Chain' (fun a b => b = a + 1) := by
  intro n
  induction n with
  | zero => intro s; simp
  | succ n ih =>
    intro s
    rw [List.range'_succ]
    rw [List.chain'_cons']
    refine ⟨?_, ih (s + 1)⟩
    intro h hh
    cases n with
    | zero => simp at hh
    | succ n =>
      rw [List.range'_succ] at hh
      simp at hh
      omega

theorem dateRange_length {s e : Int} (h : s ≤ e) :
    (dateRange s e).length = (e - s).toNat + 1 := by
  unfold dateRange
  rw [if_neg (by omega), List.length_map, List.length_range]

theorem dateRange_chain (s e : Int) :
    (dateRange s e).Chain' (fun a b => b = a + 1) := by
  unfold dateRange
  split
  · simp
  · have h : (List.range ((e - s).toNat + 1)).Chain' (fun a b => b = a + 1) := by
      rw [List.range_eq_range']
      exact chain'_range' _ _
    refine List.chain'_map_of_chain' _ ?_ h
    intro a b hab
    subst hab
    push_cast
    ring

theorem dateRange_nodup (s e : Int) : (dateRange s e).Nodup := by
  have h := dateRange_chain s e
  have h2 : (dateRange s e).Chain' (fun a b => a < b) := by
    refine h.imp ?_
    intro a b hab
    omega
  have h3 : (dateRange s e).Pairwise (fun a b => a < b) :=
    (List.chain'_iff_pairwise.1 h2)
  exact h3.imp (fun hab => by omega)

theorem aggregate_map_date (db : DB) (t : Nat) (s e : Int) :
    (aggregate db t s e).map (fun dc => dc.date) = dateRange s e := by
  unfold aggregate
  rw [List.map_map]
  exact List.map_id'' (fun x => rfl) _

theorem aggregate_length {db : DB} {t : Nat} {s e : Int} (h : s ≤ e) :
    (aggregate db t s e).length = (e - s).toNat + 1 := by
  have := congrArg List.length (aggregate_map_date db t s e)
  rw [List.length_map] at this
  rw [this, dateRange_length h]

theorem aggregate_chain (db : DB) (t : Nat) (s e : Int) :
    (aggregate db t s e).Chain' (fun a b => b.date = a.date + 1) := by
  have h := dateRange_chain s e
  rw [← aggregate_map_date db t s e, List.chain'_map] at h
  exact h

theorem freeCountOn_eq_zero_iff (db : DB) (t : Nat) (d : Int) :
    freeCountOn db t d = 0 ↔
      ¬ ∃ a ∈ db.avails, (a.trip = t ∧ a.status = .free ∧ a.date = d) ∧
        ∃ m ∈ db.members,
          m.trip = a.trip ∧ m.user = a.user ∧ m.status = .accepted := by
  unfold freeCountOn
  rw [List.sum_eq_zero_iff]
  constructor
  · rintro h ⟨a, haa, hap, m, hmm, hmp⟩
    have := h ((db.members.filter (fun m =>
        m.trip = a.trip ∧ m.user = a.user ∧ m.status = .accepted)).length)
      (List.mem_map_of_mem _ (List.mem_filter.2 ⟨haa, by simp [hap.1, hap.2.1, hap.2.2]⟩))
    rw [List.length_eq_zero, List.filter_eq_nil_iff] at this
    exact this m hmm (by simp [hmp.1, hmp.2.1, hmp.2.2])
  · intro h n hn
    rw [List.mem_map] at hn
    obtain ⟨a, ha, hlen⟩ := hn
    rw [List.mem_filter] at ha
    by_contra hne
    have : (db.members.filter (fun m =>
        m.trip = a.trip ∧ m.user = a.user ∧ m.status = .accepted)) ≠ [] := by
      intro hc
      rw [hc] at hlen
      exact hne hlen.symm
    obtain ⟨m, hm⟩ := List.exists_mem_of_ne_nil _ this
    rw [List.mem_filter] at hm
    refine h ⟨a, ha.1, ?_, m, hm.1, ?_⟩
    · have := ha.2
      simp only [decide_eq_true_eq, Bool.and_eq_true] at this
      exact this
    · have := hm.2
      simp only [decide_eq_true_eq, Bool.and_eq_true] at this
      exact this

theorem parseDates_date_cons (start end_ d : Int) (rest : List RawDate)
    (acc : List Int) :
    parseDates start end_ (RawDate.date d :: rest) acc =
      if d < start ∨ end_ < d then .error (.dateOutOfRange d)
      else if d ∈ acc then parseDates start end_ rest acc
      else parseDates start end_ rest (acc ++ [d]) := rfl

theorem parseDates_out_of_range (start end_ : Int) :
    ∀ (dates : List RawDate) (acc : List Int) (d : Int),
      RawDate.date d ∈ dates → (d < start ∨ end_ < d) →
      RawDate.malformed ∉ dates →
      ∃ d', parseDates start end_ dates acc =
        .error (.dateOutOfRange d') := by
  intro dates
  induction dates with
  | nil => intro acc d h; simp at h
  | cons x rest ih =>
    intro acc d hmem hrange hnomal
    have hnomal' : RawDate.malformed ∉ rest :=
      fun hc => hnomal (List.mem_cons_of_mem _ hc)
    cases x with
    | blank =>
      have hd : RawDate.date d ∈ rest := by
        rcases List.mem_cons.mp hmem with h | h
        · exact absurd h (by simp)
        · exact h
      exact ih acc d hd hrange hnomal'
    | malformed => exact absurd (List.mem_cons_self _ _) hnomal
    | date d0 =>
      rw [parseDates_date_cons]
      by_cases h0 : d0 < start ∨ end_ < d0
      · exact ⟨d0, by rw [if_pos h0]⟩
      · have hd : RawDate.date d ∈ rest := by
          rcases List.mem_cons.mp hmem with h | h
          · injection h with h'
            subst h'
            exact absurd hrange h0
          · exact h
        rw [if_neg h0]
        by_cases hacc : d ∈ acc
        case pos =>
          by_cases hacc0 : d0 ∈ acc
          · rw [if_pos hacc0]
            exact ih acc d hd hrange hnomal'
          · rw [if_neg hacc0]
            exact ih (acc ++ [d0]) d hd hrange hnomal'
        case neg =>
          by_cases hacc0 : d0 ∈ acc
          · rw [if_pos hacc0]
            exact ih acc d hd hrange hnomal'
          · rw [if_neg hacc0]
            exact ih (acc ++ [d0]) d hd hrange hnomal'

theorem parseDates_all_blank (start end_ : Int) :
    ∀ (dates : List RawDate) (acc : List Int),
      (∀ x ∈ dates, x = RawDate.blank) →
      parseDates start end_ dates acc = .ok acc := by
  intro dates
  induction dates with
  | nil => intro acc _; rfl
  | cons x rest ih =>
    intro acc hall
    have hx := hall x (List.mem_cons_self _ _)
    subst hx
    exact ih acc (fun y hy => hall y (List.mem_cons_of_mem _ hy))

theorem saveAvailability_guarded {db : DB} {uid tripId : Nat} {trip : Trip}
    (hfind : db.trips.find? (fun t => t.id = tripId) = some trip)
    (hw : ¬ trip.end_ < trip.start)
    (hmem : trip.creator = uid ∨
      db.members.any (fun m => m.trip = tripId ∧ m.user = uid))
    (dates : List RawDate) (hne : dates ≠ []) :
    saveAvailability db (some uid) tripId dates =
      (match parseDates trip.start trip.end_ dates [] with
       | .error e => .error e
       | .ok valid =>
         if valid.isEmpty then .error .noValidDates
         else
           .ok (DB.mk db.trips db.members
                  (db.avails.filter
                      (fun a => ¬ (a.trip = tripId ∧ a.user = uid)) ++
                    valid.map (fun d => AvailRow.mk tripId uid d .free))
                  db.periods,
                ⟨daysInclusive trip.start trip.end_, valid.length⟩)) := by
  unfold saveAvailability
  rw [hfind]
  dsimp only
  rw [if_neg hw, if_neg (not_not_intro hmem),
    if_neg (by simp [List.isEmpty_iff, hne])]

theorem applySave_of_error {db : DB} {auth : Option Nat} {tripId : Nat}
    {dates : List RawDate} {e : ApiErr}
    (h : saveAvailability db auth tripId dates = .error e) :
    applySave db auth tripId dates = db := by
  unfold applySave
  rw [h]

theorem periods_filter_after (db : DB) (t : Nat) (ranked : List RawPeriod) :
    ((db.periods.filter (fun p => ¬ p.trip = t) ++ genNewRows t ranked).filter
      (fun p => p.trip = t)) = genNewRows t ranked := by
  rw [List.filter_append]
  have h1 : (db.periods.filter (fun p => ¬ p.trip = t)).filter
      (fun p => p.trip = t) = [] := by
    rw [List.filter_filter]
    apply List.filter_eq_nil_iff.2
    intro a _
    simp only [Bool.and_eq_true, decide_eq_true_eq]
    tauto
  have h2 : (genNewRows t ranked).filter (fun p => p.trip = t) =
      genNewRows t ranked := by
    apply List.filter_eq_self.2
    intro a ha
    unfold genNewRows at ha
    rw [List.mem_map] at ha
    obtain ⟨ip, _, hip⟩ := ha
    subst hip
    simp
  rw [h1, h2, List.nil_append]

theorem genNewRows_numbers (t : Nat) (ranked : List RawPeriod) :
    (genNewRows t ranked).map (fun p => p.periodNumber) =
      List.range' 1 ranked.length := by
  unfold genNewRows
  rw [List.map_map]
  exact enum_numbers ranked

theorem genResp_numbers (ranked : List RawPeriod) :
    (genRespPeriods ranked).map (fun p => p.periodNumber) =
      List.range' 1 ranked.length := by
  unfold genRespPeriods
  rw [List.map_map]
  exact enum_numbers ranked

theorem genResp_length (ranked : List RawPeriod) :
    (genRespPeriods ranked).length = ranked.length := by
  unfold genRespPeriods
  rw [List.length_map, List.enum_length]

theorem genNewRows_map_percent (t : Nat) (ranked : List RawPeriod) :
    (genNewRows t ranked).map (fun r => r.percent) =
      ranked.map (fun p => p.percent) := by
  unfold genNewRows
  rw [List.map_map]
  exact enum_proj ranked (fun p => p.percent)

theorem genNewRows_map_round2 (t : Nat) (ranked : List RawPeriod) :
    (genNewRows t ranked).map (fun r => round2 r.percent) =
      ranked.map (fun p => round2 p.percent) := by
  unfold genNewRows
  rw [List.map_map]
  exact enum_proj ranked (fun p => round2 p.percent)

theorem genNewRows_map_formula (t : Nat) (ranked : List RawPeriod) :
    (genNewRows t ranked).map
        (fun r => (r.freeCount : ℚ) / (r.totalMembers : ℚ) * 100) =
      ranked.map (fun p => (p.minFree : ℚ) / (p.totalM : ℚ) * 100) := by
  unfold genNewRows
  rw [List.map_map]
  exact enum_proj ranked (fun p => (p.minFree : ℚ) / (p.totalM : ℚ) * 100)

theorem genResp_map_percent (ranked : List RawPeriod) :
    (genRespPeriods ranked).map (fun p => p.percent) =
      ranked.map (fun p => round2 p.percent) := by
  unfold genRespPeriods
  rw [List.map_map]
  exact enum_proj ranked (fun p => round2 p.percent)

theorem extract_percent (daily : List DayCount) (minAvail minDays totalM : Int) :
    ∀ p ∈ extract daily minAvail minDays totalM,
      p.percent = (p.minFree : ℚ) / (p.totalM : ℚ) * 100 := by
  rw [extract_eq_extractSpec]
  intro p hp
  unfold extractSpec at hp
  rw [List.mem_filterMap] at hp
  obtain ⟨g, _, hmk⟩ := hp
  cases g with
  | nil => exact absurd hmk (by simp [mkSpecPeriod])
  | cons d ds =>
    rw [mkSpecPeriod_cons] at hmk
    unfold closeOpt at hmk
    split at hmk
    · cases hmk
      rfl
    · exact absurd hmk (by simp)

theorem genRanked_percent (db : DB) (t : Nat) (trip : Trip) (md ma : Int) :
    ∀ p ∈ genRanked db t trip md ma,
      p.percent = (p.minFree : ℚ) / (p.totalM : ℚ) * 100 := by
  intro p hp
  unfold genRanked at hp
  rw [(rankSort_perm _).mem_iff] at hp
  exact extract_percent _ _ _ _ p hp

theorem genNewRows_sorted (t : Nat) (ranked : List RawPeriod) :
    (genNewRows t ranked).Pairwise (fun a b => listOrder a b = true) := by
  have h : ((genNewRows t ranked).map
      (fun p => p.periodNumber)).Pairwise (· < ·) := by
    rw [genNewRows_numbers]
    exact List.pairwise_lt_range' 1 ranked.length
  rw [List.pairwise_map] at h
  refine h.imp ?_
  intro a b hab
  unfold listOrder
  rw [if_pos (Nat.ne_of_lt hab)]
  simpa using hab

theorem generate_eval_example :
    generateAvailablePeriods
        (DB.mk [Trip.mk 1 9 0 0]
          [MemberRow.mk 1 11 .accepted, MemberRow.mk 1 12 .accepted,
            MemberRow.mk 1 13 .accepted]
          [AvailRow.mk 1 11 0 .free] []) (some 11) 1 1 1 =
      .ok (DB.mk [Trip.mk 1 9 0 0]
            [MemberRow.mk 1 11 .accepted, MemberRow.mk 1 12 .accepted,
              MemberRow.mk 1 13 .accepted]
            [AvailRow.mk 1 11 0 .free]
            [PeriodRow.mk 1 1 0 0 1 1 3 (100 / 3)],
          GenOut.mk [RespPeriod.mk 1 0 0 1 3 (3333 / 100)] 1 0 3 1 1) := by
  have h := @generate_ok_mk
    (DB.mk [Trip.mk 1 9 0 0]
      [MemberRow.mk 1 11 .accepted, MemberRow.mk 1 12 .accepted,
        MemberRow.mk 1 13 .accepted]
      [AvailRow.mk 1 11 0 .free] []) 11 1 1 1 (Trip.mk 1 9 0 0)
    (by rfl) (by decide) (by decide)
  have hif : (if (1 : Int) ≤ 0 then (1 : Int) else 1) = 1 := by norm_num
  rw [hif] at h
  have hq : (((1 : ℤ) : ℚ) / ((3 : ℤ) : ℚ)) * 100 = 100 / 3 := by
    push_cast
    norm_num
  have hr : genRanked
      (DB.mk [Trip.mk 1 9 0 0]
        [MemberRow.mk 1 11 .accepted, MemberRow.mk 1 12 .accepted,
          MemberRow.mk 1 13 .accepted]
        [AvailRow.mk 1 11 0 .free] []) 1 (Trip.mk 1 9 0 0) 1 1 =
      [RawPeriod.mk 0 0 1 1 3 (100 / 3)] := by
    unfold genRanked rankSort
    rw [show extract (aggregate
        (DB.mk [Trip.mk 1 9 0 0]
          [MemberRow.mk 1 11 .accepted, MemberRow.mk 1 12 .accepted,
            MemberRow.mk 1 13 .accepted]
          [AvailRow.mk 1 11 0 .free] []) 1 (Trip.mk 1 9 0 0).start
          (Trip.mk 1 9 0 0).end_) 1 1
        ((acceptedCount (DB.mk [Trip.mk 1 9 0 0]
          [MemberRow.mk 1 11 .accepted, MemberRow.mk 1 12 .accepted,
            MemberRow.mk 1 13 .accepted]
          [AvailRow.mk 1 11 0 .free] []) 1 : Nat) : Int) =
        [RawPeriod.mk 0 0 1 1 3 ((((1 : ℤ) : ℚ) / ((3 : ℤ) : ℚ)) * 100)]
        from by rfl,
      hq, List.mergeSort_singleton]
  rw [hr] at h
  have hresp : genRespPeriods [RawPeriod.mk 0 0 1 1 3 (100 / 3)] =
      [RespPeriod.mk 1 0 0 1 3 (3333 / 100)] := by
    rw [show genRespPeriods [RawPeriod.mk 0 0 1 1 3 (100 / 3)] =
        [RespPeriod.mk 1 0 0 1 3 (round2 (100 / 3))] from by rfl]
    rw [show round2 ((100 : ℚ) / 3) = 3333 / 100 from by
      unfold round2 goRound
      rw [if_neg (by norm_num)]
      rw [show ⌊(100 : ℚ) / 3 * 100 + 1 / 2⌋ = 3333 from by
        rw [Int.floor_eq_iff]
        norm_num]
      norm_num]
  rw [show genNewRows 1 [RawPeriod.mk 0 0 1 1 3 (100 / 3)] =
      [PeriodRow.mk 1 1 0 0 1 1 3 (100 / 3)] from by rfl, hresp] at h
  exact h.trans (by rfl)

theorem getPeriods_eval_example :
    getAvailablePeriods
        (DB.mk [Trip.mk 1 9 0 0]
          [MemberRow.mk 1 11 .accepted, MemberRow.mk 1 12 .accepted,
            MemberRow.mk 1 13 .accepted]
          [AvailRow.mk 1 11 0 .free]
          [PeriodRow.mk 1 1 0 0 1 1 3 (100 / 3)]) (some 11) 1 =
      .ok [PeriodDTO.mk 1 0 0 1 3 (100 / 3)] := by
  have h := @getPeriods_ok_mk
    (DB.mk [Trip.mk 1 9 0 0]
      [MemberRow.mk 1 11 .accepted, MemberRow.mk 1 12 .accepted,
        MemberRow.mk 1 13 .accepted]
      [AvailRow.mk 1 11 0 .free]
      [PeriodRow.mk 1 1 0 0 1 1 3 (100 / 3)]) 11 1 (by rfl)
  rw [show (DB.mk [Trip.mk 1 9 0 0]
      [MemberRow.mk 1 11 .accepted, MemberRow.mk 1 12 .accepted,
        MemberRow.mk 1 13 .accepted]
      [AvailRow.mk 1 11 0 .free]
      [PeriodRow.mk 1 1 0 0 1 1 3 (100 / 3)]).periods.filter
      (fun p => p.trip = 1) = [PeriodRow.mk 1 1 0 0 1 1 3 (100 / 3)]
      from by rfl,
    List.mergeSort_singleton] at h
  exact h.trans (by rfl)

/-- C1, counterexample: on a trip whose window is valid but which has no
accepted members, `GenerateAvailablePeriods` does not complete successfully
with an empty period list — it fails with the `noAcceptedMembers`
Bad-Request error. -/
theorem c1_counterexample :
    generateAvailablePeriods (DB.mk [Trip.mk 1 9 0 3] [] [] [])
        (some 7) 1 1 1 = .error .noAcceptedMembers ∧
    ∀ r, generateAvailablePeriods (DB.mk [Trip.mk 1 9 0 3] [] [] [])
        (some 7) 1 1 1 ≠ .ok r := by
  constructor
  · rfl
  · intro r hr
    rw [show generateAvailablePeriods (DB.mk [Trip.mk 1 9 0 3] [] [] [])
        (some 7) 1 1 1 = .error .noAcceptedMembers from rfl] at hr
    exact Except.noConfusion hr

/-- C1 (amended): for every authenticated generation request on an existing
trip with a valid window and zero accepted members, `GenerateAvailablePeriods`
fails with the `noAcceptedMembers` Bad-Request error instead of returning an
empty period list. -/
theorem c1_zero_members_rejected (db : DB) (uid tripId : Nat) (md ma : Int)
    (trip : Trip)
    (hfind : db.trips.find? (fun tr => tr.id = tripId) = some trip)
    (hw : ¬ trip.end_ < trip.start)
    (hzero : acceptedCount db tripId = 0) :
    generateAvailablePeriods db (some uid) tripId md ma =
      .error .noAcceptedMembers := by
  unfold generateAvailablePeriods
  dsimp only
  rw [hfind]
  dsimp only
  rw [if_neg hw, if_pos hzero]

/-- Witness for C1's amended theorem at a concrete one-trip, zero-member
database. -/
theorem c1_zero_members_rejected_witness :
    (DB.mk [Trip.mk 1 9 0 3] [] [] []).trips.find?
        (fun tr => tr.id = 1) = some (Trip.mk 1 9 0 3) ∧
    ¬ (Trip.mk 1 9 0 3).end_ < (Trip.mk 1 9 0 3).start ∧
    acceptedCount (DB.mk [Trip.mk 1 9 0 3] [] [] []) 1 = 0 ∧
    generateAvailablePeriods (DB.mk [Trip.mk 1 9 0 3] [] [] [])
        (some 7) 1 1 1 = .error .noAcceptedMembers :=
  ⟨by decide, by decide, by decide,
   c1_zero_members_rejected (DB.mk [Trip.mk 1 9 0 3] [] [] []) 7 1 1 1
     (Trip.mk 1 9 0 3) (by decide) (by decide) (by decide)⟩

/-- C2: for every daily-count sequence and parameters, the extraction loop of
`GenerateAvailablePeriods` returns exactly the maximal runs of consecutive
calendar days whose `free_count` meets the threshold (a non-qualifying day or
date discontinuity always closes the run), with `min_free` the minimum
`free_count` of the run's days, keeping a run iff its duration reaches
`min_days`; every run produced by the splitter is a nonempty block of
consecutive dates, and empty/no-qualifying input yields an empty result, not
an error. -/
theorem c2_extract_is_maximal_runs (daily : List DayCount)
    (minAvail minDays totalM : Int) :
    extract daily minAvail minDays totalM =
      extractSpec daily minAvail minDays totalM ∧
    ∀ g ∈ splitAdj (daily.filter (qualifies minAvail)),
      g ≠ [] ∧ g.Chain' (fun a b => b.date = a.date + 1) :=
  ⟨extract_eq_extractSpec daily minAvail minDays totalM, splitAdj_groups _⟩

/-- Witness for C2 on the spec's Scenario A daily counts. -/
theorem c2_extract_is_maximal_runs_witness :
    extract [⟨1, 1⟩, ⟨2, 2⟩, ⟨3, 2⟩, ⟨4, 1⟩, ⟨5, 0⟩] 2 1 2 =
      extractSpec [⟨1, 1⟩, ⟨2, 2⟩, ⟨3, 2⟩, ⟨4, 1⟩, ⟨5, 0⟩] 2 1 2 ∧
    (([⟨2, 2⟩, ⟨3, 2⟩] : List DayCount) ≠ [] ∧
      ([⟨2, 2⟩, ⟨3, 2⟩] : List DayCount).Chain'
        (fun a b => b.date = a.date + 1)) :=
  ⟨(c2_extract_is_maximal_runs [⟨1, 1⟩, ⟨2, 2⟩, ⟨3, 2⟩, ⟨4, 1⟩, ⟨5, 0⟩]
      2 1 2).1,
   (c2_extract_is_maximal_runs [⟨1, 1⟩, ⟨2, 2⟩, ⟨3, 2⟩, ⟨4, 1⟩, ⟨5, 0⟩]
      2 1 2).2 [⟨2, 2⟩, ⟨3, 2⟩] (by decide)⟩

/-- C6, counterexample: on the gap-free daily counts `[2, 1, 2]` with
`min_days = 1`, raising the threshold from 1 to 2 increases the number of
extracted periods from one to two, refuting the "never increases the number
of periods" half of the claim. -/
theorem c6_counterexample :
    (1 : Int) ≤ 2 ∧
    ([⟨0, 2⟩, ⟨1, 1⟩, ⟨2, 2⟩] : List DayCount).Chain'
      (fun a b => b.date = a.date + 1) ∧
    (extract [⟨0, 2⟩, ⟨1, 1⟩, ⟨2, 2⟩] 1 1 2).length = 1 ∧
    (extract [⟨0, 2⟩, ⟨1, 1⟩, ⟨2, 2⟩] 2 1 2).length = 2 ∧
    ¬ ((extract [⟨0, 2⟩, ⟨1, 1⟩, ⟨2, 2⟩] 2 1 2).length ≤
        (extract [⟨0, 2⟩, ⟨1, 1⟩, ⟨2, 2⟩] 1 1 2).length) := by
  refine ⟨by decide, by simp [List.chain'_cons], by decide, by decide,
    by decide⟩

/-- C6 (amended): for a fixed gap-free daily-count sequence and fixed
`min_days`, raising `min_availability_member` never increases the **total
length** of the extracted periods (the number of periods can increase, as a
qualifying run may split). -/
theorem c6_total_length_monotone (daily : List DayCount)
    (t1 t2 minDays totalM : Int) (ht : t1 ≤ t2)
    (hgf : daily.Chain' (fun a b => b.date = a.date + 1)) :
    totalLen (extract daily t2 minDays totalM) ≤
      totalLen (extract daily t1 minDays totalM) :=
  extract_totalLen_mono daily t1 t2 minDays totalM ht hgf

/-- Witness for C6's amended theorem on the counterexample's daily counts. -/
theorem c6_total_length_monotone_witness :
    (1 : Int) ≤ 2 ∧
    ([⟨0, 2⟩, ⟨1, 1⟩, ⟨2, 2⟩] : List DayCount).Chain'
      (fun a b => b.date = a.date + 1) ∧
    totalLen (extract [⟨0, 2⟩, ⟨1, 1⟩, ⟨2, 2⟩] 2 1 2) ≤
      totalLen (extract [⟨0, 2⟩, ⟨1, 1⟩, ⟨2, 2⟩] 1 1 2) :=
  ⟨by decide, by simp [List.chain'_cons],
   c6_total_length_monotone [⟨0, 2⟩, ⟨1, 1⟩, ⟨2, 2⟩] 1 2 1 2 (by decide)
     (by simp [List.chain'_cons])⟩

/-- C3: ranking orders periods by `min_free` descending, then `duration_days`
descending, then `start_date` ascending, is a permutation of its input, and
`period_number` is assigned as a dense `1..N` sequence in output order — both
in the persisted rows of the trip and in the generation response. -/
theorem c3_ranking_and_numbering :
    (∀ ps : List RawPeriod,
      (rankSort ps).Perm ps ∧
      (rankSort ps).Pairwise rankedBefore ∧
      (rankSort ps).enum.map (fun ip => ip.1 + 1) =
        List.range' 1 ps.length) ∧
    (∀ (db : DB) (auth : Option Nat) (t : Nat) (md ma : Int) (db' : DB)
        (out : GenOut),
      generateAvailablePeriods db auth t md ma = .ok (db', out) →
      (db'.periods.filter (fun p => p.trip = t)).map
          (fun p => p.periodNumber) = List.range' 1 out.periods.length ∧
      out.periods.map (fun p => p.periodNumber) =
        List.range' 1 out.periods.length) := by
  constructor
  · intro ps
    exact ⟨rankSort_perm ps, rankSort_sorted ps,
      by rw [enum_numbers, rankSort_length]⟩
  · intro db auth t md ma db' out h
    obtain ⟨uid, trip, -, -, -, -, hdb, hout⟩ := generate_ok_inv h
    subst hdb
    subst hout
    dsimp only
    rw [periods_filter_after, genNewRows_numbers, genResp_numbers,
      genResp_length]
    exact ⟨rfl, rfl⟩

/-- Witness for C3's generation part at a concrete database. -/
theorem c3_ranking_and_numbering_witness :
    (rankSort []).Perm [] ∧
    ((DB.mk [Trip.mk 1 9 0 0]
        [MemberRow.mk 1 11 .accepted, MemberRow.mk 1 12 .accepted,
          MemberRow.mk 1 13 .accepted]
        [AvailRow.mk 1 11 0 .free]
        [PeriodRow.mk 1 1 0 0 1 1 3 (100 / 3)]).periods.filter
        (fun p => p.trip = 1)).map (fun p => p.periodNumber) =
      List.range' 1
        (GenOut.mk [RespPeriod.mk 1 0 0 1 3 (3333 / 100)]
          1 0 3 1 1).periods.length :=
  ⟨(c3_ranking_and_numbering.1 []).1,
   (c3_ranking_and_numbering.2
     (DB.mk [Trip.mk 1 9 0 0]
       [MemberRow.mk 1 11 .accepted, MemberRow.mk 1 12 .accepted,
         MemberRow.mk 1 13 .accepted]
       [AvailRow.mk 1 11 0 .free] []) (some 11) 1 1 1
     (DB.mk [Trip.mk 1 9 0 0]
       [MemberRow.mk 1 11 .accepted, MemberRow.mk 1 12 .accepted,
         MemberRow.mk 1 13 .accepted]
       [AvailRow.mk 1 11 0 .free]
       [PeriodRow.mk 1 1 0 0 1 1 3 (100 / 3)])
     (GenOut.mk [RespPeriod.mk 1 0 0 1 3 (3333 / 100)] 1 0 3 1 1)
     generate_eval_example).1⟩

/-- C8: for every database and every trip window with `end_ >= start`, the
daily aggregation yields exactly `end_ - start + 1` entries, one per calendar
date of the window in ascending gap-free order with no duplicates, and an
entry's `free_count` is zero exactly when no accepted member marked that date
free. -/
theorem c8_aggregate_window_coverage (db : DB) (t : Nat) (s e : Int)
    (h : s ≤ e) :
    (aggregate db t s e).length = (e - s).toNat + 1 ∧
    (aggregate db t s e).map (fun dc => dc.date) = dateRange s e ∧
    (dateRange s e).Nodup ∧
    (aggregate db t s e).Chain' (fun a b => b.date = a.date + 1) ∧
    ∀ dc ∈ aggregate db t s e,
      (dc.freeCount = 0 ↔
        ¬ ∃ a ∈ db.avails,
          (a.trip = t ∧ a.status = .free ∧ a.date = dc.date) ∧
          ∃ m ∈ db.members,
            m.trip = a.trip ∧ m.user = a.user ∧ m.status = .accepted) := by
  refine ⟨aggregate_length h, aggregate_map_date db t s e, dateRange_nodup s e,
    aggregate_chain db t s e, ?_⟩
  intro dc hdc
  unfold aggregate at hdc
  rw [List.mem_map] at hdc
  obtain ⟨d, -, hd⟩ := hdc
  subst hd
  dsimp only
  rw [show ((freeCountOn db t d : Int) = 0 ↔ freeCountOn db t d = 0) by
    exact_mod_cast Iff.rfl]
  exact freeCountOn_eq_zero_iff db t d

/-- Witness for C8 at a concrete database and single-day window. -/
theorem c8_aggregate_window_coverage_witness :
    (0 : Int) ≤ 0 ∧
    (aggregate (DB.mk [Trip.mk 1 9 0 0] [MemberRow.mk 1 11 .accepted]
        [AvailRow.mk 1 11 0 .free] []) 1 0 0).length =
      ((0 : Int) - 0).toNat + 1 :=
  ⟨le_rfl,
   (c8_aggregate_window_coverage
     (DB.mk [Trip.mk 1 9 0 0] [MemberRow.mk 1 11 .accepted]
       [AvailRow.mk 1 11 0 .free] []) 1 0 0 le_rfl).1⟩

/-- C9: neither `GenerateAvailablePeriods` nor `GetAvailablePeriods` performs
any trip-membership check: no run of either handler can fail with the
Forbidden error, and an authenticated non-member can both trigger generation
and read the generated periods of an existing trip. -/
theorem c9_no_membership_check (db : DB) (uid t : Nat) (md ma : Int) :
    (∀ e, generateAvailablePeriods db (some uid) t md ma = .error e →
      e ≠ .forbidden) ∧
    (∀ e, getAvailablePeriods db (some uid) t = .error e →
      e ≠ .forbidden) ∧
    (∀ trip, db.trips.find? (fun tr => tr.id = t) = some trip →
      ¬ trip.end_ < trip.start →
      acceptedCount db t ≠ 0 →
      ¬ db.members.any (fun m => m.trip = t ∧ m.user = uid) →
      (∃ r, generateAvailablePeriods db (some uid) t md ma = .ok r) ∧
      (∃ l, getAvailablePeriods db (some uid) t = .ok l)) := by
  refine ⟨?_, ?_, ?_⟩
  · intro e he
    rcases generate_err_inv he with h | h | h | h <;> subst h <;> simp
  · intro e he
    rcases getPeriods_err_inv he with h | h <;> subst h <;> simp
  · intro trip hfind hw hmm _
    constructor
    · exact ⟨_, generate_ok_mk hfind hw hmm⟩
    · refine ⟨_, getPeriods_ok_mk ?_⟩
      have hpmem := List.mem_of_find?_eq_some hfind
      have hp := @List.find?_some Trip (fun tr => decide (tr.id = t)) trip
        db.trips hfind
      exact List.any_eq_true.2 ⟨trip, hpmem, hp⟩

/-- Witness for C9 at a concrete database whose only member is another
user. -/
theorem c9_no_membership_check_witness :
    (∃ r, generateAvailablePeriods
        (DB.mk [Trip.mk 1 9 0 3] [MemberRow.mk 1 12 .accepted] [] [])
        (some 7) 1 1 1 = .ok r) ∧
    (∃ l, getAvailablePeriods
        (DB.mk [Trip.mk 1 9 0 3] [MemberRow.mk 1 12 .accepted] [] [])
        (some 7) 1 = .ok l) :=
  (c9_no_membership_check
    (DB.mk [Trip.mk 1 9 0 3] [MemberRow.mk 1 12 .accepted] [] [])
    7 1 1 1).2.2 (Trip.mk 1 9 0 3) (by decide) (by decide) (by decide)
    (by decide)

/-- C10: an availability submission whose `dates` array is empty, or whose
entries all trim to the empty string, is rejected with a validation error
(`emptyDates`, resp. `noValidDates`) before any database write, leaving the
stored availability rows unchanged — an empty submission does not clear a
member's availability. -/
theorem c10_empty_submission_rejected (db : DB) (uid t : Nat) (trip : Trip)
    (hfind : db.trips.find? (fun tr => tr.id = t) = some trip)
    (hw : ¬ trip.end_ < trip.start)
    (hmem : trip.creator = uid ∨
      db.members.any (fun m => m.trip = t ∧ m.user = uid)) :
    (saveAvailability db (some uid) t [] = .error .emptyDates ∧
      applySave db (some uid) t [] = db) ∧
    (∀ dates : List RawDate, dates ≠ [] →
      (∀ x ∈ dates, x = RawDate.blank) →
      saveAvailability db (some uid) t dates = .error .noValidDates ∧
      applySave db (some uid) t dates = db) := by
  constructor
  · have hsave : saveAvailability db (some uid) t [] =
        .error .emptyDates := by
      unfold saveAvailability
      rw [hfind]
      dsimp only
      rw [if_neg hw, if_neg (not_not_intro hmem)]
      rfl
    exact ⟨hsave, applySave_of_error hsave⟩
  · intro dates hne hblank
    have hsave : saveAvailability db (some uid) t dates =
        .error .noValidDates := by
      rw [saveAvailability_guarded hfind hw hmem dates hne,
        parseDates_all_blank trip.start trip.end_ dates [] hblank]
      rfl
    exact ⟨hsave, applySave_of_error hsave⟩

/-- Witness for C10 at a concrete database, for both the empty and the
all-blank submission. -/
theorem c10_empty_submission_rejected_witness :
    (saveAvailability (DB.mk [Trip.mk 1 9 0 3] [MemberRow.mk 1 7 .accepted]
        [AvailRow.mk 1 7 2 .free] []) (some 7) 1 [] =
      .error .emptyDates ∧
     applySave (DB.mk [Trip.mk 1 9 0 3] [MemberRow.mk 1 7 .accepted]
        [AvailRow.mk 1 7 2 .free] []) (some 7) 1 [] =
      DB.mk [Trip.mk 1 9 0 3] [MemberRow.mk 1 7 .accepted]
        [AvailRow.mk 1 7 2 .free] []) ∧
    (saveAvailability (DB.mk [Trip.mk 1 9 0 3] [MemberRow.mk 1 7 .accepted]
        [AvailRow.mk 1 7 2 .free] []) (some 7) 1 [.blank, .blank] =
      .error .noValidDates) :=
  ⟨(c10_empty_submission_rejected
      (DB.mk [Trip.mk 1 9 0 3] [MemberRow.mk 1 7 .accepted]
        [AvailRow.mk 1 7 2 .free] []) 7 1 (Trip.mk 1 9 0 3)
      (by decide) (by decide) (by decide)).1,
   ((c10_empty_submission_rejected
      (DB.mk [Trip.mk 1 9 0 3] [MemberRow.mk 1 7 .accepted]
        [AvailRow.mk 1 7 2 .free] []) 7 1 (Trip.mk 1 9 0 3)
      (by decide) (by decide) (by decide)).2 [.blank, .blank] (by decide)
      (by decide)).1⟩

/-- C7: a submission by a participant of an existing trip with a valid window
that contains a well-formed date outside the trip window fails whole with the
out-of-range validation error and leaves the stored availability unchanged;
a submission whose dates all parse and lie in the window succeeds, storing
exactly the deduplicated date list (duplicates are dropped silently, not
rejected). -/
theorem c7_out_of_range_rejected (db : DB) (uid t : Nat) (trip : Trip)
    (hfind : db.trips.find? (fun tr => tr.id = t) = some trip)
    (hw : ¬ trip.end_ < trip.start)
    (hmem : trip.creator = uid ∨
      db.members.any (fun m => m.trip = t ∧ m.user = uid)) :
    (∀ (dates : List RawDate) (d : Int),
      RawDate.date d ∈ dates → (d < trip.start ∨ trip.end_ < d) →
      RawDate.malformed ∉ dates →
      (∃ d', saveAvailability db (some uid) t dates =
        .error (.dateOutOfRange d')) ∧
      applySave db (some uid) t dates = db) ∧
    (∀ (dates : List RawDate) (valid : List Int),
      parseDates trip.start trip.end_ dates [] = .ok valid → valid ≠ [] →
      dates ≠ [] →
      ∃ db' s, saveAvailability db (some uid) t dates = .ok (db', s) ∧
        storedDates db' t uid = valid) := by
  constructor
  · intro dates d hmemd hrange hnomal
    have hne : dates ≠ [] := by
      rintro rfl
      simp at hmemd
    obtain ⟨d', hperr⟩ :=
      parseDates_out_of_range trip.start trip.end_ dates [] d hmemd hrange
        hnomal
    have hsave : saveAvailability db (some uid) t dates =
        .error (.dateOutOfRange d') := by
      rw [saveAvailability_guarded hfind hw hmem dates hne, hperr]
    exact ⟨⟨d', hsave⟩, applySave_of_error hsave⟩
  · intro dates valid hparse hvne hne
    exact ⟨_, _, saveAvailability_ok_mk hfind hw hmem hne hparse hvne,
      storedDates_replaced db t uid valid⟩

/-- Witness for C7 at a concrete database: an out-of-range submission is
rejected with the previous row intact, and an in-range submission with a
duplicate date succeeds storing the deduplicated set. -/
theorem c7_out_of_range_rejected_witness :
    ((∃ d', saveAvailability
        (DB.mk [Trip.mk 1 9 0 3] [MemberRow.mk 1 7 .accepted]
          [AvailRow.mk 1 7 2 .free] []) (some 7) 1 [RawDate.date 99] =
        .error (.dateOutOfRange d')) ∧
      applySave (DB.mk [Trip.mk 1 9 0 3] [MemberRow.mk 1 7 .accepted]
          [AvailRow.mk 1 7 2 .free] []) (some 7) 1 [RawDate.date 99] =
        DB.mk [Trip.mk 1 9 0 3] [MemberRow.mk 1 7 .accepted]
          [AvailRow.mk 1 7 2 .free] []) ∧
    (∃ db' s, saveAvailability
        (DB.mk [Trip.mk 1 9 0 3] [MemberRow.mk 1 7 .accepted]
          [AvailRow.mk 1 7 2 .free] []) (some 7) 1
        [RawDate.date 1, RawDate.date 1, RawDate.date 2] = .ok (db', s) ∧
      storedDates db' 1 7 = [1, 2]) :=
  ⟨(c7_out_of_range_rejected
      (DB.mk [Trip.mk 1 9 0 3] [MemberRow.mk 1 7 .accepted]
        [AvailRow.mk 1 7 2 .free] []) 7 1 (Trip.mk 1 9 0 3)
      (by decide) (by decide) (by decide)).1 [RawDate.date 99] 99
      (by decide) (by decide) (by decide),
   (c7_out_of_range_rejected
      (DB.mk [Trip.mk 1 9 0 3] [MemberRow.mk 1 7 .accepted]
        [AvailRow.mk 1 7 2 .free] []) 7 1 (Trip.mk 1 9 0 3)
      (by decide) (by decide) (by decide)).2
      [RawDate.date 1, RawDate.date 1, RawDate.date 2] [1, 2]
      (by rfl) (by decide) (by decide)⟩

/-- C4: after a member successfully submits set `A` and then set `B` for the
same trip, the stored availability for that `(trip, user)` pair is exactly
what a single submission of `B` would have stored (delete-all-then-insert,
no union), and resubmitting the same set is idempotent. -/
theorem c4_resubmission_last_wins (db : DB) (uid t : Nat)
    (A B : List RawDate) (db1 db2 : DB) (s1 s2 : AvailSummary)
    (hA : saveAvailability db (some uid) t A = .ok (db1, s1))
    (hB : saveAvailability db1 (some uid) t B = .ok (db2, s2)) :
    (∃ db2' s2', saveAvailability db (some uid) t B = .ok (db2', s2') ∧
      storedDates db2 t uid = storedDates db2' t uid) ∧
    (A = B → storedDates db2 t uid = storedDates db1 t uid) := by
  obtain ⟨tripA, validA, hfindA, hwA, hmemA, hneA, hparseA, hvneA, hdb1⟩ :=
    saveAvailability_ok_inv hA
  obtain ⟨tripB, validB, hfindB, hwB, hmemB, hneB, hparseB, hvneB, hdb2⟩ :=
    saveAvailability_ok_inv hB
  subst hdb1
  dsimp only at hfindB hmemB hparseB
  rw [hfindA] at hfindB
  injection hfindB with htrip
  subst htrip
  have hdirect := saveAvailability_ok_mk hfindA hwB hmemB hneB hparseB hvneB
  have e2 : storedDates db2 t uid = validB := by
    rw [hdb2]
    exact storedDates_replaced _ t uid validB
  constructor
  · refine ⟨_, _, hdirect, ?_⟩
    rw [e2]
    exact (storedDates_replaced db t uid validB).symm
  · intro hAB
    subst hAB
    rw [hparseA] at hparseB
    injection hparseB with hvalid
    subst hvalid
    rw [e2]
    exact (storedDates_replaced db t uid _).symm

/-- Witness for C4 at a concrete database: submit `{1}` then `{2, 3}`. -/
theorem c4_resubmission_last_wins_witness :
    ∃ db2' s2', saveAvailability
        (DB.mk [Trip.mk 1 9 0 3] [MemberRow.mk 1 7 .accepted] [] [])
        (some 7) 1 [RawDate.date 2, RawDate.date 3] = .ok (db2', s2') ∧
      storedDates (DB.mk [Trip.mk 1 9 0 3] [MemberRow.mk 1 7 .accepted]
          [AvailRow.mk 1 7 2 .free, AvailRow.mk 1 7 3 .free] []) 1 7 =
        storedDates db2' 1 7 :=
  (c4_resubmission_last_wins
    (DB.mk [Trip.mk 1 9 0 3] [MemberRow.mk 1 7 .accepted] [] []) 7 1
    [RawDate.date 1] [RawDate.date 2, RawDate.date 3]
    (DB.mk [Trip.mk 1 9 0 3] [MemberRow.mk 1 7 .accepted]
      [AvailRow.mk 1 7 1 .free] [])
    (DB.mk [Trip.mk 1 9 0 3] [MemberRow.mk 1 7 .accepted]
      [AvailRow.mk 1 7 2 .free, AvailRow.mk 1 7 3 .free] [])
    (AvailSummary.mk 4 1) (AvailSummary.mk 4 2)
    (by rfl) (by rfl)).1

/-- C5, counterexample: with three accepted members and one member free on
the single window day, generation persists the raw percentage `100/3` in
`available_periods` and the listing returns it unrounded, while the claim
demands the stored and listed value equal the two-decimal rounding
`33.33 = 3333/100`; only the generation response is rounded. -/
theorem c5_counterexample :
    generateAvailablePeriods
        (DB.mk [Trip.mk 1 9 0 0]
          [MemberRow.mk 1 11 .accepted, MemberRow.mk 1 12 .accepted,
            MemberRow.mk 1 13 .accepted]
          [AvailRow.mk 1 11 0 .free] []) (some 11) 1 1 1 =
      .ok (DB.mk [Trip.mk 1 9 0 0]
            [MemberRow.mk 1 11 .accepted, MemberRow.mk 1 12 .accepted,
              MemberRow.mk 1 13 .accepted]
            [AvailRow.mk 1 11 0 .free]
            [PeriodRow.mk 1 1 0 0 1 1 3 (100 / 3)],
          GenOut.mk [RespPeriod.mk 1 0 0 1 3 (3333 / 100)] 1 0 3 1 1) ∧
    getAvailablePeriods
        (DB.mk [Trip.mk 1 9 0 0]
          [MemberRow.mk 1 11 .accepted, MemberRow.mk 1 12 .accepted,
            MemberRow.mk 1 13 .accepted]
          [AvailRow.mk 1 11 0 .free]
          [PeriodRow.mk 1 1 0 0 1 1 3 (100 / 3)]) (some 11) 1 =
      .ok [PeriodDTO.mk 1 0 0 1 3 (100 / 3)] ∧
    round2 ((1 : ℚ) / 3 * 100) = 3333 / 100 ∧
    (100 : ℚ) / 3 ≠ 3333 / 100 := by
  refine ⟨generate_eval_example, getPeriods_eval_example, ?_, by norm_num⟩
  rw [show ((1 : ℚ) / 3 * 100) = 100 / 3 from by norm_num]
  unfold round2 goRound
  rw [if_neg (by norm_num)]
  rw [show ⌊(100 : ℚ) / 3 * 100 + 1 / 2⌋ = 3333 from by
    rw [Int.floor_eq_iff]
    norm_num]
  norm_num

/-- C5 (amended): in every successful generation run, the response's
`availability_percentage` values are the two-decimal roundings of the
persisted rows' values, while the persisted rows (and the listing, which
returns them as stored) carry the unrounded `min_free / total_members * 100`
quotient. -/
theorem c5_percentage_rounding (db : DB) (auth : Option Nat) (t : Nat)
    (md ma : Int) (db' : DB) (out : GenOut)
    (h : generateAvailablePeriods db auth t md ma = .ok (db', out)) :
    out.periods.map (fun p => p.percent) =
      (db'.periods.filter (fun p => p.trip = t)).map
        (fun r => round2 r.percent) ∧
    (db'.periods.filter (fun p => p.trip = t)).map (fun r => r.percent) =
      (db'.periods.filter (fun p => p.trip = t)).map
        (fun r => (r.freeCount : ℚ) / (r.totalMembers : ℚ) * 100) ∧
    ∀ uid, ∃ dtos, getAvailablePeriods db' (some uid) t = .ok dtos ∧
      dtos.map (fun p => p.percent) =
        (db'.periods.filter (fun p => p.trip = t)).map
          (fun r => r.percent) := by
  obtain ⟨uid0, trip, -, hfind, -, -, hdb, hout⟩ := generate_ok_inv h
  subst hdb
  subst hout
  dsimp only
  rw [periods_filter_after]
  refine ⟨?_, ?_, ?_⟩
  · rw [genResp_map_percent, genNewRows_map_round2]
  · rw [genNewRows_map_percent, genNewRows_map_formula]
    apply List.map_congr_left
    intro p hp
    exact genRanked_percent db t trip _ _ p hp
  · intro uid
    have hpmem := List.mem_of_find?_eq_some hfind
    have hp := @List.find?_some Trip (fun tr => decide (tr.id = t)) trip
      db.trips hfind
    have hex : (DB.mk db.trips db.members db.avails
        (db.periods.filter (fun p => ¬ p.trip = t) ++
          genNewRows t (genRanked db t trip (if md ≤ 0 then 1 else md)
            (if ma ≤ 0 then 1 else ma)))).trips.any
        (fun tr => tr.id = t) = true :=
      List.any_eq_true.2 ⟨trip, hpmem, hp⟩
    refine ⟨_, getPeriods_ok_mk hex, ?_⟩
    dsimp only
    rw [periods_filter_after,
      List.mergeSort_of_sorted (genNewRows_sorted t _), List.map_map]
    rfl

/-- Witness for C5's amended theorem at a concrete three-member database. -/
theorem c5_percentage_rounding_witness :
    (GenOut.mk [RespPeriod.mk 1 0 0 1 3 (3333 / 100)] 1 0 3 1 1).periods.map
        (fun p => p.percent) =
      ((DB.mk [Trip.mk 1 9 0 0]
          [MemberRow.mk 1 11 .accepted, MemberRow.mk 1 12 .accepted,
            MemberRow.mk 1 13 .accepted]
          [AvailRow.mk 1 11 0 .free]
          [PeriodRow.mk 1 1 0 0 1 1 3 (100 / 3)]).periods.filter
        (fun p => p.trip = 1)).map (fun r => round2 r.percent) ∧
    ∃ dtos, getAvailablePeriods
        (DB.mk [Trip.mk 1 9 0 0]
          [MemberRow.mk 1 11 .accepted, MemberRow.mk 1 12 .accepted,
            MemberRow.mk 1 13 .accepted]
          [AvailRow.mk 1 11 0 .free]
          [PeriodRow.mk 1 1 0 0 1 1 3 (100 / 3)]) (some 11) 1 = .ok dtos ∧
      dtos.map (fun p => p.percent) =
        ((DB.mk [Trip.mk 1 9 0 0]
            [MemberRow.mk 1 11 .accepted, MemberRow.mk 1 12 .accepted,
              MemberRow.mk 1 13 .accepted]
            [AvailRow.mk 1 11 0 .free]
            [PeriodRow.mk 1 1 0 0 1 1 3 (100 / 3)]).periods.filter
          (fun p => p.trip = 1)).map (fun r => r.percent) :=
  ⟨(c5_percentage_rounding
      (DB.mk [Trip.mk 1 9 0 0]
        [MemberRow.mk 1 11 .accepted, MemberRow.mk 1 12 .accepted,
          MemberRow.mk 1 13 .accepted]
        [AvailRow.mk 1 11 0 .free] []) (some 11) 1 1 1
      (DB.mk [Trip.mk 1 9 0 0]
        [MemberRow.mk 1 11 .accepted, MemberRow.mk 1 12 .accepted,
          MemberRow.mk 1 13 .accepted]
        [AvailRow.mk 1 11 0 .free]
        [PeriodRow.mk 1 1 0 0 1 1 3 (100 / 3)])
      (GenOut.mk [RespPeriod.mk 1 0 0 1 3 (3333 / 100)] 1 0 3 1 1)
      generate_eval_example).1,
   (c5_percentage_rounding
      (DB.mk [Trip.mk 1 9 0 0]
        [MemberRow.mk 1 11 .accepted, MemberRow.mk 1 12 .accepted,
          MemberRow.mk 1 13 .accepted]
        [AvailRow.mk 1 11 0 .free] []) (some 11) 1 1 1
      (DB.mk [Trip.mk 1 9 0 0]
        [MemberRow.mk 1 11 .accepted, MemberRow.mk 1 12 .accepted,
          MemberRow.mk 1 13 .accepted]
        [AvailRow.mk 1 11 0 .free]
        [PeriodRow.mk 1 1 0 0 1 1 3 (100 / 3)])
      (GenOut.mk [RespPeriod.mk 1 0 0 1 3 (3333 / 100)] 1 0 3 1 1)
      generate_eval_example).2.2 11⟩

end Go2gether
